import Mathlib

/-!
Verification of the problem-acquisition and extraction pipeline of a
browser-based math-competition practice application.

The development shallowly embeds the pipeline's source code:

* the catalog generator `generateFullCatalogQueue` and the batch runner
  `processPrefetchQueue` (prefetch service);
* the proxy fetcher `fetchViaProxy`, the HTML normalizer
  `cleanAndRestoreLatex`, the document segmenter, the answer extractor and
  the problem assembler `fetchAoPSProblem` (scraper service);
* the lenient JSON reader `parseJsonFromResponse`.

HTML documents are modelled as trees of elements (tag, attributes,
children), the browser DOM being abstracted to ordered child and sibling
access exactly as the segmentation and normalization logic uses it.
Network and AI calls are modelled as oracle inputs threaded through the
functions, so every embedded definition is executable.
-/

set_option maxRecDepth 10000

/-! ## Constants (constants.ts) -/

def CURRENT_YEAR : Nat := 2025

def AMC8_START_YEAR : Nat := 1985

def AMC10_12_START_YEAR : Nat := 2000

/-! ## Exam taxonomy (types.ts) -/

inductive ExamLevel
  | AMC8
  | AMC10
  | AMC12
deriving DecidableEq, Repr

inductive ProblemSource
  | AOPS
  | MOCK
  | AI_GENERATED
deriving DecidableEq, Repr

structure ChatMessage where
  role : String
  text : String
deriving DecidableEq, Repr

/-- The central `Problem` record (types.ts). Optional TS fields are
`Option`; the session-only fields `userAnswer`/`isCorrect` are absent at
assembly time and omitted. -/
structure Problem where
  id : String
  source : ProblemSource
  originalUrl : Option String
  questionHtml : String
  images : List String
  options : List String
  correctOption : String
  solutionHtml : String
  difficulty : Nat
  hints : List String
  solutionChat : List ChatMessage
  topic : Option String
deriving DecidableEq, Repr

/-! ## Catalog generator (prefetch service) -/

structure PrefetchTask where
  url : String
  id : String
  level : ExamLevel
  year : Nat
  examType : String
deriving DecidableEq, Repr

structure PrefetchStats where
  total : Nat
  success : Nat
  failed : Nat
  currentYear : Nat
  currentExam : String
deriving DecidableEq, Repr

/-- Helper `addTask` of `generateFullCatalogQueue`: pushes tasks for
problems `1..count` of one exam paper. -/
def addTask (y : Nat) (lvl : ExamLevel) (wikiName display idSuffix : String)
    (count : Nat) : List PrefetchTask :=
  (List.range count).map (fun j =>
    let i := j + 1
    { url := "https://artofproblemsolving.com/wiki/index.php?title=" ++ Nat.repr y ++
          "_" ++ wikiName ++ "_Problems/Problem_" ++ Nat.repr i
      id := Nat.repr y ++ "-" ++ idSuffix ++ "-" ++ Nat.repr i
      level := lvl
      year := y
      examType := display })

/-- Descending year loop `for (let y = hi; y >= lo; y--)`. -/
def yearsDesc (hi lo : Nat) : List Nat :=
  (List.range (hi + 1 - lo)).map (fun k => hi - k)

/-- Loop body of the AMC 8 part of the catalog loop: the tasks one year
contributes (AJHSME name for years at or before 1998). -/
def amc8Blocks (y : Nat) : List PrefetchTask :=
  if y ≤ 1998 then addTask y .AMC8 "AJHSME" "AJHSME" "amc8" 25
  else addTask y .AMC8 "AMC_8" "AMC 8" "amc8" 25

/-- Loop body of the AMC 10 part: 2000 and 2001 are a single unified
paper, every other year splits into A and B variants. -/
def amc10Blocks (y : Nat) : List PrefetchTask :=
  if y = 2000 ∨ y = 2001 then addTask y .AMC10 "AMC_10" "AMC 10" "amc10" 25
  else addTask y .AMC10 "AMC_10A" "AMC 10A" "amc10a" 25 ++
       addTask y .AMC10 "AMC_10B" "AMC 10B" "amc10b" 25

/-- Loop body of the AMC 12 part (same year structure as AMC 10). -/
def amc12Blocks (y : Nat) : List PrefetchTask :=
  if y = 2000 ∨ y = 2001 then addTask y .AMC12 "AMC_12" "AMC 12" "amc12" 25
  else addTask y .AMC12 "AMC_12A" "AMC 12A" "amc12a" 25 ++
       addTask y .AMC12 "AMC_12B" "AMC 12B" "amc12b" 25

/-- AMC 8 section of the catalog (current year down to 1985). -/
def amc8Section : List PrefetchTask :=
  (yearsDesc CURRENT_YEAR AMC8_START_YEAR).flatMap amc8Blocks

/-- AMC 10 section (current year down to 2000). -/
def amc10Section : List PrefetchTask :=
  (yearsDesc CURRENT_YEAR AMC10_12_START_YEAR).flatMap amc10Blocks

/-- AMC 12 section (current year down to 2000). -/
def amc12Section : List PrefetchTask :=
  (yearsDesc CURRENT_YEAR AMC10_12_START_YEAR).flatMap amc12Blocks

/-- `generateFullCatalogQueue`: the full prefetch catalog, AMC 8 then
AMC 10 then AMC 12, newest year first inside each family. -/
def generateFullCatalogQueue : List PrefetchTask :=
  amc8Section ++ amc10Section ++ amc12Section

/-! ## Observation helpers for the catalog

`tasksOf` collects the tasks of one (family, year, variant) combination,
`variantsOf` the variant names a family emits for one year, and `idNum`
reads the problem number back out of a task id (the digits after the last
dash). These are specification-side observations of the generated queue. -/

def tasksOf (lvl : ExamLevel) (y : Nat) (et : String) : List PrefetchTask :=
  generateFullCatalogQueue.filter (fun t =>
    decide (t.level = lvl) && decide (t.year = y) && decide (t.examType = et))

def variantsOf (lvl : ExamLevel) (y : Nat) : List String :=
  ((generateFullCatalogQueue.filter (fun t =>
      decide (t.level = lvl) && decide (t.year = y))).map (fun t => t.examType)).dedup

def digitsToNat : List Char → Nat → Nat
  | [], acc => acc
  | c :: cs, acc => digitsToNat cs (acc * 10 + (c.toNat - 48))

def idNum (t : PrefetchTask) : Nat :=
  digitsToNat ((t.id.data.reverse.takeWhile (fun c => c != '-')).reverse) 0

def suffixRank (s : List Char) : Nat :=
  if s = "amc8".data then 0
  else if s = "amc10".data then 10
  else if s = "amc10a".data then 11
  else if s = "amc10b".data then 12
  else if s = "amc12".data then 20
  else if s = "amc12a".data then 21
  else if s = "amc12b".data then 22
  else 99

def splitDashAux : List Char → List Char → List (List Char)
  | [], acc => [acc.reverse]
  | c :: cs, acc =>
      if c = '-' then acc.reverse :: splitDashAux cs []
      else splitDashAux cs (c :: acc)

/-- Injection of a task id `"<year>-<suffix>-<num>"` into `Nat`, chosen so
that it is strictly increasing along the generated queue. -/
def idKey (s : String) : Nat :=
  match splitDashAux s.data [] with
  | [a, b, c] =>
      let y := digitsToNat a 0
      let n := digitsToNat c 0
      (suffixRank b / 10) * 1000000000 + (3000 - y) * 100000 +
        (suffixRank b % 10) * 1000 + n
  | _ => 0

def chainLtAux : Nat → List Nat → Bool
  | _, [] => true
  | prev, x :: xs => if prev < x then chainLtAux x xs else false

/-! ## Catalog lemmas -/

theorem mem_addTask {t : PrefetchTask} {y : Nat} {lvl : ExamLevel}
    {w d s : String} {n : Nat} (h : t ∈ addTask y lvl w d s n) :
    t.level = lvl ∧ t.year = y ∧ t.examType = d := by
  unfold addTask at h
  obtain ⟨j, _, rfl⟩ := List.mem_map.mp h
  exact ⟨rfl, rfl, rfl⟩

theorem yearsDesc_nodup (hi lo : Nat) : (yearsDesc hi lo).Nodup := by
  unfold yearsDesc
  refine List.Nodup.map_on ?_ (List.nodup_range _)
  intro a ha b hb hab
  rw [List.mem_range] at ha hb
  omega

theorem mem_yearsDesc {y hi lo : Nat} (h1 : lo ≤ y) (h2 : y ≤ hi) :
    y ∈ yearsDesc hi lo := by
  unfold yearsDesc
  refine List.mem_map.mpr ⟨hi - y, List.mem_range.mpr (by omega), by omega⟩

theorem flatMap_filter_single {α : Type} {g : Nat → List α} {ys : List Nat}
    {p : α → Bool} {y : Nat} (hnd : ys.Nodup) (hy : y ∈ ys)
    (hnomatch : ∀ y' ∈ ys, y' ≠ y → ∀ t ∈ g y', p t = false) :
    (ys.flatMap g).filter p = (g y).filter p := by
  induction ys with
  | nil => cases hy
  | cons a tl ih =>
      rw [List.flatMap_cons, List.filter_append]
      rcases List.mem_cons.mp hy with hya | hmem
      · subst hya
        have h2 : (tl.flatMap g).filter p = [] := by
          rw [List.filter_eq_nil_iff]
          intro t ht
          obtain ⟨y', hy', hty⟩ := List.mem_flatMap.mp ht
          have hne : y' ≠ y := fun h => (List.nodup_cons.mp hnd).1 (h ▸ hy')
          simp [hnomatch y' (List.mem_cons_of_mem _ hy') hne t hty]
        rw [h2, List.append_nil]
      · have hne : a ≠ y := fun h => (List.nodup_cons.mp hnd).1 (h ▸ hmem)
        have h1 : (g a).filter p = [] := by
          rw [List.filter_eq_nil_iff]
          intro t ht
          simp [hnomatch a (List.mem_cons_self a tl) hne t ht]
        rw [h1, List.nil_append]
        exact ih (List.nodup_cons.mp hnd).2 hmem
          (fun y' h' hne' t ht => hnomatch y' (List.mem_cons_of_mem _ h') hne' t ht)

theorem takeWhile_ne_dash_append (a rest : List Char) (h : ∀ c ∈ a, c ≠ '-') :
    (a ++ '-' :: rest).takeWhile (fun c => c != '-') = a := by
  induction a with
  | nil => simp [List.takeWhile_cons]
  | cons c t ih =>
      have hc : (c != '-') = true := by
        simpa using h c (List.mem_cons_self c t)
      simp [List.takeWhile_cons, hc,
        ih (fun x hx => h x (List.mem_cons_of_mem _ hx))]

theorem repr_small : ∀ i ∈ List.range' 1 25,
    (∀ c ∈ (Nat.repr i).data, c ≠ '-') ∧ digitsToNat (Nat.repr i).data 0 = i := by
  decide

theorem idNum_mk (u : String) (y i : Nat) (lvl : ExamLevel) (d s : String)
    (hi : ∀ c ∈ (Nat.repr i).data, c ≠ '-')
    (hrt : digitsToNat (Nat.repr i).data 0 = i) :
    idNum { url := u, id := Nat.repr y ++ "-" ++ s ++ "-" ++ Nat.repr i,
            level := lvl, year := y, examType := d } = i := by
  unfold idNum
  have hdash : ("-" : String).data = ['-'] := rfl
  have hdata : (Nat.repr y ++ "-" ++ s ++ "-" ++ Nat.repr i).data =
      (Nat.repr y).data ++ '-' :: (s.data ++ '-' :: (Nat.repr i).data) := by
    simp [String.data_append, hdash]
  rw [hdata]
  have hrev : ((Nat.repr y).data ++ '-' :: (s.data ++ '-' :: (Nat.repr i).data)).reverse =
      (Nat.repr i).data.reverse ++ '-' ::
        (s.data.reverse ++ '-' :: (Nat.repr y).data.reverse) := by
    simp [List.reverse_append]
  rw [hrev, takeWhile_ne_dash_append _ _
    (fun c hc => hi c (List.mem_reverse.mp hc)), List.reverse_reverse, hrt]

theorem map_idNum_addTask (y : Nat) (lvl : ExamLevel) (w d s : String) :
    (addTask y lvl w d s 25).map idNum = List.range' 1 25 := by
  unfold addTask
  rw [List.map_map, List.range'_eq_map_range]
  refine List.map_congr_left ?_
  intro j hj
  rw [List.mem_range] at hj
  have hmem : 1 + j ∈ List.range' 1 25 :=
    List.mem_range'.mpr ⟨j, hj, by omega⟩
  obtain ⟨h1, h2⟩ := repr_small (1 + j) hmem
  have hji : j + 1 = 1 + j := by omega
  simp only [Function.comp]
  rw [hji, idNum_mk _ y (1 + j) lvl d s h1 h2]

theorem map_examType_addTask (y : Nat) (lvl : ExamLevel) (w d s : String) (n : Nat) :
    (addTask y lvl w d s n).map (fun t => t.examType) = List.replicate n d := by
  unfold addTask
  rw [List.map_map]
  show (List.range n).map (fun _ => d) = List.replicate n d
  simp [List.map_const']

theorem dedup_replicate_succ {α : Type} [DecidableEq α] (a : α) :
    ∀ n : Nat, (List.replicate (n + 1) a).dedup = [a]
  | 0 => by simp
  | n + 1 => by
      rw [List.replicate_succ, List.dedup_cons_of_mem
        (List.mem_replicate.mpr ⟨Nat.succ_ne_zero n, rfl⟩)]
      exact dedup_replicate_succ a n

theorem chainLtAux_spec : ∀ (l : List Nat) (p : Nat), chainLtAux p l = true →
    (∀ x ∈ l, p < x) ∧ l.Pairwise (· < ·)
  | [], _, _ => ⟨by simp, List.Pairwise.nil⟩
  | x :: xs, p, h => by
      unfold chainLtAux at h
      split at h
      · next hpx =>
          obtain ⟨hall, hpw⟩ := chainLtAux_spec xs x h
          refine ⟨?_, List.pairwise_cons.mpr ⟨hall, hpw⟩⟩
          intro z hz
          rcases List.mem_cons.mp hz with rfl | hz'
          · exact hpx
          · exact Nat.lt_trans hpx (hall z hz')
      · cases h

theorem mem_amc8Blocks {t : PrefetchTask} {y : Nat} (h : t ∈ amc8Blocks y) :
    t.level = .AMC8 ∧ t.year = y ∧
      t.examType = (if y ≤ 1998 then "AJHSME" else "AMC 8") := by
  unfold amc8Blocks at h
  by_cases hy : y ≤ 1998 <;> simp only [hy, if_true, if_false] at h <;>
    simp [hy, mem_addTask h]

theorem mem_amc10Blocks {t : PrefetchTask} {y : Nat} (h : t ∈ amc10Blocks y) :
    t.level = .AMC10 ∧ t.year = y := by
  unfold amc10Blocks at h
  by_cases hy : y = 2000 ∨ y = 2001 <;> simp only [hy, if_true, if_false] at h
  · exact ⟨(mem_addTask h).1, (mem_addTask h).2.1⟩
  · rcases List.mem_append.mp h with h' | h' <;>
      exact ⟨(mem_addTask h').1, (mem_addTask h').2.1⟩

theorem mem_amc12Blocks {t : PrefetchTask} {y : Nat} (h : t ∈ amc12Blocks y) :
    t.level = .AMC12 ∧ t.year = y := by
  unfold amc12Blocks at h
  by_cases hy : y = 2000 ∨ y = 2001 <;> simp only [hy, if_true, if_false] at h
  · exact ⟨(mem_addTask h).1, (mem_addTask h).2.1⟩
  · rcases List.mem_append.mp h with h' | h' <;>
      exact ⟨(mem_addTask h').1, (mem_addTask h').2.1⟩

theorem level_mem_amc8Section {t : PrefetchTask} (h : t ∈ amc8Section) :
    t.level = .AMC8 := by
  unfold amc8Section at h
  obtain ⟨y', _, ht⟩ := List.mem_flatMap.mp h
  exact (mem_amc8Blocks ht).1

theorem level_mem_amc10Section {t : PrefetchTask} (h : t ∈ amc10Section) :
    t.level = .AMC10 := by
  unfold amc10Section at h
  obtain ⟨y', _, ht⟩ := List.mem_flatMap.mp h
  exact (mem_amc10Blocks ht).1

theorem level_mem_amc12Section {t : PrefetchTask} (h : t ∈ amc12Section) :
    t.level = .AMC12 := by
  unfold amc12Section at h
  obtain ⟨y', _, ht⟩ := List.mem_flatMap.mp h
  exact (mem_amc12Blocks ht).1

theorem dedup_rep_append {α : Type} [DecidableEq α] (a b : α) (hab : a ≠ b) :
    ∀ n m : Nat,
      (List.replicate (n + 1) a ++ List.replicate (m + 1) b).dedup = [a, b]
  | 0, m => by
      have h1 : List.replicate (0 + 1) a ++ List.replicate (m + 1) b =
          a :: List.replicate (m + 1) b := by simp [List.replicate_succ]
      have h2 : a ∉ List.replicate (m + 1) b :=
        fun hm => hab (List.eq_of_mem_replicate hm)
      rw [h1, List.dedup_cons_of_not_mem h2, dedup_replicate_succ]
  | n + 1, m => by
      have h1 : List.replicate (n + 1 + 1) a ++ List.replicate (m + 1) b =
          a :: (List.replicate (n + 1) a ++ List.replicate (m + 1) b) := by
        simp [List.replicate_succ]
      rw [h1, List.dedup_cons_of_mem (by
        exact List.mem_append.mpr (Or.inl
          (List.mem_replicate.mpr ⟨Nat.succ_ne_zero n, rfl⟩)))]
      exact dedup_rep_append a b hab n m

theorem addTask_filter2 (y : Nat) (lvl : ExamLevel) (w d s : String) (n : Nat)
    (y0 : Nat) (lvl0 : ExamLevel) :
    (addTask y lvl w d s n).filter (fun t =>
        decide (t.level = lvl0) && decide (t.year = y0)) =
      if lvl = lvl0 ∧ y = y0 then addTask y lvl w d s n else [] := by
  split
  · next hcond =>
      refine List.filter_eq_self.mpr fun t ht => ?_
      obtain ⟨ha, hb, _⟩ := mem_addTask ht
      simp [ha, hb, hcond.1, hcond.2]
  · next hcond =>
      refine List.filter_eq_nil_iff.mpr fun t ht => ?_
      obtain ⟨ha, hb, _⟩ := mem_addTask ht
      simp only [ha, hb, ne_eq, Bool.and_eq_true, decide_eq_true_eq, not_and]
      intro h1 h2
      exact hcond ⟨h1, h2⟩

theorem addTask_filter3 (y : Nat) (lvl : ExamLevel) (w d s : String) (n : Nat)
    (y0 : Nat) (lvl0 : ExamLevel) (et : String) :
    (addTask y lvl w d s n).filter (fun t =>
        decide (t.level = lvl0) && decide (t.year = y0) &&
          decide (t.examType = et)) =
      if lvl = lvl0 ∧ y = y0 ∧ d = et then addTask y lvl w d s n else [] := by
  split
  · next hcond =>
      refine List.filter_eq_self.mpr fun t ht => ?_
      obtain ⟨ha, hb, hc⟩ := mem_addTask ht
      simp [ha, hb, hc, hcond.1, hcond.2.1, hcond.2.2]
  · next hcond =>
      refine List.filter_eq_nil_iff.mpr fun t ht => ?_
      obtain ⟨ha, hb, hc⟩ := mem_addTask ht
      simp only [ha, hb, hc, ne_eq, Bool.and_eq_true, decide_eq_true_eq, not_and]
      intro h1 h2
      exact hcond ⟨h1.1, h1.2, h2⟩

theorem queue_filter_amc8 (p : PrefetchTask → Bool) (y : Nat)
    (hylo : AMC8_START_YEAR ≤ y) (hyhi : y ≤ CURRENT_YEAR)
    (h10 : ∀ t : PrefetchTask, t.level = .AMC10 → p t = false)
    (h12 : ∀ t : PrefetchTask, t.level = .AMC12 → p t = false)
    (hy' : ∀ y', y' ≠ y → ∀ t ∈ amc8Blocks y', p t = false) :
    generateFullCatalogQueue.filter p = (amc8Blocks y).filter p := by
  unfold generateFullCatalogQueue
  rw [List.filter_append, List.filter_append]
  have e10 : amc10Section.filter p = [] :=
    List.filter_eq_nil_iff.mpr fun t ht => by
      simp [h10 t (level_mem_amc10Section ht)]
  have e12 : amc12Section.filter p = [] :=
    List.filter_eq_nil_iff.mpr fun t ht => by
      simp [h12 t (level_mem_amc12Section ht)]
  have e8 : amc8Section.filter p = (amc8Blocks y).filter p := by
    unfold amc8Section
    exact flatMap_filter_single (yearsDesc_nodup _ _) (mem_yearsDesc hylo hyhi)
      (fun y' _ hne t ht => hy' y' hne t ht)
  rw [e8, e10, e12, List.append_nil, List.append_nil]

theorem queue_filter_amc10 (p : PrefetchTask → Bool) (y : Nat)
    (hylo : AMC10_12_START_YEAR ≤ y) (hyhi : y ≤ CURRENT_YEAR)
    (h8 : ∀ t : PrefetchTask, t.level = .AMC8 → p t = false)
    (h12 : ∀ t : PrefetchTask, t.level = .AMC12 → p t = false)
    (hy' : ∀ y', y' ≠ y → ∀ t ∈ amc10Blocks y', p t = false) :
    generateFullCatalogQueue.filter p = (amc10Blocks y).filter p := by
  unfold generateFullCatalogQueue
  rw [List.filter_append, List.filter_append]
  have e8 : amc8Section.filter p = [] :=
    List.filter_eq_nil_iff.mpr fun t ht => by
      simp [h8 t (level_mem_amc8Section ht)]
  have e12 : amc12Section.filter p = [] :=
    List.filter_eq_nil_iff.mpr fun t ht => by
      simp [h12 t (level_mem_amc12Section ht)]
  have e10 : amc10Section.filter p = (amc10Blocks y).filter p := by
    unfold amc10Section
    exact flatMap_filter_single (yearsDesc_nodup _ _) (mem_yearsDesc hylo hyhi)
      (fun y' _ hne t ht => hy' y' hne t ht)
  rw [e8, e10, e12, List.append_nil, List.nil_append]

theorem queue_filter_amc12 (p : PrefetchTask → Bool) (y : Nat)
    (hylo : AMC10_12_START_YEAR ≤ y) (hyhi : y ≤ CURRENT_YEAR)
    (h8 : ∀ t : PrefetchTask, t.level = .AMC8 → p t = false)
    (h10 : ∀ t : PrefetchTask, t.level = .AMC10 → p t = false)
    (hy' : ∀ y', y' ≠ y → ∀ t ∈ amc12Blocks y', p t = false) :
    generateFullCatalogQueue.filter p = (amc12Blocks y).filter p := by
  unfold generateFullCatalogQueue
  rw [List.filter_append, List.filter_append]
  have e8 : amc8Section.filter p = [] :=
    List.filter_eq_nil_iff.mpr fun t ht => by
      simp [h8 t (level_mem_amc8Section ht)]
  have e10 : amc10Section.filter p = [] :=
    List.filter_eq_nil_iff.mpr fun t ht => by
      simp [h10 t (level_mem_amc10Section ht)]
  have e12 : amc12Section.filter p = (amc12Blocks y).filter p := by
    unfold amc12Section
    exact flatMap_filter_single (yearsDesc_nodup _ _) (mem_yearsDesc hylo hyhi)
      (fun y' _ hne t ht => hy' y' hne t ht)
  rw [e8, e10, e12, List.nil_append, List.nil_append]

theorem amc8_year_spec (y : Nat) (hy : y ∈ List.range' AMC8_START_YEAR 41) :
    variantsOf .AMC8 y = [if y ≤ 1998 then "AJHSME" else "AMC 8"] ∧
    ∀ v ∈ variantsOf .AMC8 y,
      (tasksOf .AMC8 y v).map idNum = List.range' 1 25 := by
  have hc1 : AMC8_START_YEAR = 1985 := rfl
  have hc2 : CURRENT_YEAR = 2025 := rfl
  obtain ⟨i, hi, hyi⟩ := List.mem_range'.mp hy
  have hylo : AMC8_START_YEAR ≤ y := by omega
  have hyhi : y ≤ CURRENT_YEAR := by omega
  have hvar : variantsOf .AMC8 y = [if y ≤ 1998 then "AJHSME" else "AMC 8"] := by
    unfold variantsOf
    rw [queue_filter_amc8
      (fun t => decide (t.level = ExamLevel.AMC8) && decide (t.year = y)) y hylo hyhi
      (fun t ht => by simp [ht]) (fun t ht => by simp [ht])
      (fun y' hne t ht => by
        have hm := mem_amc8Blocks ht
        simp [hm.1, hm.2.1, hne])]
    unfold amc8Blocks
    by_cases h98 : y ≤ 1998
    · simp only [h98, if_true]
      rw [addTask_filter2, if_pos ⟨rfl, rfl⟩, map_examType_addTask,
        show (25 : Nat) = 24 + 1 from rfl, dedup_replicate_succ]
    · simp only [h98, if_false]
      rw [addTask_filter2, if_pos ⟨rfl, rfl⟩, map_examType_addTask,
        show (25 : Nat) = 24 + 1 from rfl, dedup_replicate_succ]
  refine ⟨hvar, ?_⟩
  intro v hv
  rw [hvar, List.mem_singleton] at hv
  subst hv
  unfold tasksOf
  rw [queue_filter_amc8
    (fun t => decide (t.level = ExamLevel.AMC8) && decide (t.year = y) &&
      decide (t.examType = if y ≤ 1998 then "AJHSME" else "AMC 8")) y hylo hyhi
    (fun t ht => by simp [ht]) (fun t ht => by simp [ht])
    (fun y' hne t ht => by
      have hm := mem_amc8Blocks ht
      simp [hm.1, hm.2.1, hne])]
  unfold amc8Blocks
  by_cases h98 : y ≤ 1998
  · simp only [h98, if_true]
    rw [addTask_filter3, if_pos ⟨rfl, rfl, rfl⟩, map_idNum_addTask]
  · simp only [h98, if_false]
    rw [addTask_filter3, if_pos ⟨rfl, rfl, rfl⟩, map_idNum_addTask]

theorem amc10_year_spec (y : Nat) (hy : y ∈ List.range' AMC10_12_START_YEAR 26) :
    variantsOf .AMC10 y =
      (if y = 2000 ∨ y = 2001 then ["AMC 10"] else ["AMC 10A", "AMC 10B"]) ∧
    ∀ v ∈ variantsOf .AMC10 y,
      (tasksOf .AMC10 y v).map idNum = List.range' 1 25 := by
  have hc1 : AMC10_12_START_YEAR = 2000 := rfl
  have hc2 : CURRENT_YEAR = 2025 := rfl
  obtain ⟨i, hi, hyi⟩ := List.mem_range'.mp hy
  have hylo : AMC10_12_START_YEAR ≤ y := by omega
  have hyhi : y ≤ CURRENT_YEAR := by omega
  have hvar : variantsOf .AMC10 y =
      (if y = 2000 ∨ y = 2001 then ["AMC 10"] else ["AMC 10A", "AMC 10B"]) := by
    unfold variantsOf
    rw [queue_filter_amc10
      (fun t => decide (t.level = ExamLevel.AMC10) && decide (t.year = y)) y hylo hyhi
      (fun t ht => by simp [ht]) (fun t ht => by simp [ht])
      (fun y' hne t ht => by
        have hm := mem_amc10Blocks ht
        simp [hm.1, hm.2, hne])]
    unfold amc10Blocks
    by_cases h01 : y = 2000 ∨ y = 2001
    · simp only [h01, if_true]
      rw [addTask_filter2, if_pos ⟨rfl, rfl⟩, map_examType_addTask,
        show (25 : Nat) = 24 + 1 from rfl, dedup_replicate_succ]
    · simp only [h01, if_false]
      rw [List.filter_append, addTask_filter2, addTask_filter2,
        if_pos ⟨rfl, rfl⟩, if_pos ⟨rfl, rfl⟩, List.map_append,
        map_examType_addTask, map_examType_addTask,
        show (25 : Nat) = 24 + 1 from rfl]
      exact dedup_rep_append _ _ (by decide) 24 24
  refine ⟨hvar, ?_⟩
  intro v hv
  rw [hvar] at hv
  by_cases h01 : y = 2000 ∨ y = 2001
  · rw [if_pos h01, List.mem_singleton] at hv
    subst hv
    unfold tasksOf
    rw [queue_filter_amc10
      (fun t => decide (t.level = ExamLevel.AMC10) && decide (t.year = y) &&
        decide (t.examType = "AMC 10")) y hylo hyhi
      (fun t ht => by simp [ht]) (fun t ht => by simp [ht])
      (fun y' hne t ht => by
        have hm := mem_amc10Blocks ht
        simp [hm.1, hm.2, hne])]
    unfold amc10Blocks
    rw [if_pos h01, addTask_filter3, if_pos ⟨rfl, rfl, rfl⟩, map_idNum_addTask]
  · rw [if_neg h01] at hv
    have hfilter : generateFullCatalogQueue.filter (fun t =>
        decide (t.level = ExamLevel.AMC10) && decide (t.year = y) &&
          decide (t.examType = v)) =
        (amc10Blocks y).filter (fun t =>
          decide (t.level = ExamLevel.AMC10) && decide (t.year = y) &&
            decide (t.examType = v)) :=
      queue_filter_amc10 _ y hylo hyhi
        (fun t ht => by simp [ht]) (fun t ht => by simp [ht])
        (fun y' hne t ht => by
          have hm := mem_amc10Blocks ht
          simp [hm.1, hm.2, hne])
    rcases List.mem_cons.mp hv with hva | hv'
    · subst hva
      unfold tasksOf
      rw [hfilter]
      unfold amc10Blocks
      rw [if_neg h01, List.filter_append, addTask_filter3, addTask_filter3,
        if_pos ⟨rfl, rfl, rfl⟩, if_neg (by simp), List.append_nil,
        map_idNum_addTask]
    · have hvb : v = "AMC 10B" := by simpa using hv'
      subst hvb
      unfold tasksOf
      rw [hfilter]
      unfold amc10Blocks
      rw [if_neg h01, List.filter_append, addTask_filter3, addTask_filter3,
        if_neg (by simp), if_pos ⟨rfl, rfl, rfl⟩, List.nil_append,
        map_idNum_addTask]

theorem amc12_year_spec (y : Nat) (hy : y ∈ List.range' AMC10_12_START_YEAR 26) :
    variantsOf .AMC12 y =
      (if y = 2000 ∨ y = 2001 then ["AMC 12"] else ["AMC 12A", "AMC 12B"]) ∧
    ∀ v ∈ variantsOf .AMC12 y,
      (tasksOf .AMC12 y v).map idNum = List.range' 1 25 := by
  have hc1 : AMC10_12_START_YEAR = 2000 := rfl
  have hc2 : CURRENT_YEAR = 2025 := rfl
  obtain ⟨i, hi, hyi⟩ := List.mem_range'.mp hy
  have hylo : AMC10_12_START_YEAR ≤ y := by omega
  have hyhi : y ≤ CURRENT_YEAR := by omega
  have hvar : variantsOf .AMC12 y =
      (if y = 2000 ∨ y = 2001 then ["AMC 12"] else ["AMC 12A", "AMC 12B"]) := by
    unfold variantsOf
    rw [queue_filter_amc12
      (fun t => decide (t.level = ExamLevel.AMC12) && decide (t.year = y)) y hylo hyhi
      (fun t ht => by simp [ht]) (fun t ht => by simp [ht])
      (fun y' hne t ht => by
        have hm := mem_amc12Blocks ht
        simp [hm.1, hm.2, hne])]
    unfold amc12Blocks
    by_cases h01 : y = 2000 ∨ y = 2001
    · simp only [h01, if_true]
      rw [addTask_filter2, if_pos ⟨rfl, rfl⟩, map_examType_addTask,
        show (25 : Nat) = 24 + 1 from rfl, dedup_replicate_succ]
    · simp only [h01, if_false]
      rw [List.filter_append, addTask_filter2, addTask_filter2,
        if_pos ⟨rfl, rfl⟩, if_pos ⟨rfl, rfl⟩, List.map_append,
        map_examType_addTask, map_examType_addTask,
        show (25 : Nat) = 24 + 1 from rfl]
      exact dedup_rep_append _ _ (by decide) 24 24
  refine ⟨hvar, ?_⟩
  intro v hv
  rw [hvar] at hv
  by_cases h01 : y = 2000 ∨ y = 2001
  · rw [if_pos h01, List.mem_singleton] at hv
    subst hv
    unfold tasksOf
    rw [queue_filter_amc12
      (fun t => decide (t.level = ExamLevel.AMC12) && decide (t.year = y) &&
        decide (t.examType = "AMC 12")) y hylo hyhi
      (fun t ht => by simp [ht]) (fun t ht => by simp [ht])
      (fun y' hne t ht => by
        have hm := mem_amc12Blocks ht
        simp [hm.1, hm.2, hne])]
    unfold amc12Blocks
    rw [if_pos h01, addTask_filter3, if_pos ⟨rfl, rfl, rfl⟩, map_idNum_addTask]
  · rw [if_neg h01] at hv
    have hfilter : generateFullCatalogQueue.filter (fun t =>
        decide (t.level = ExamLevel.AMC12) && decide (t.year = y) &&
          decide (t.examType = v)) =
        (amc12Blocks y).filter (fun t =>
          decide (t.level = ExamLevel.AMC12) && decide (t.year = y) &&
            decide (t.examType = v)) :=
      queue_filter_amc12 _ y hylo hyhi
        (fun t ht => by simp [ht]) (fun t ht => by simp [ht])
        (fun y' hne t ht => by
          have hm := mem_amc12Blocks ht
          simp [hm.1, hm.2, hne])
    rcases List.mem_cons.mp hv with hva | hv'
    · subst hva
      unfold tasksOf
      rw [hfilter]
      unfold amc12Blocks
      rw [if_neg h01, List.filter_append, addTask_filter3, addTask_filter3,
        if_pos ⟨rfl, rfl, rfl⟩, if_neg (by simp), List.append_nil,
        map_idNum_addTask]
    · have hvb : v = "AMC 12B" := by simpa using hv'
      subst hvb
      unfold tasksOf
      rw [hfilter]
      unfold amc12Blocks
      rw [if_neg h01, List.filter_append, addTask_filter3, addTask_filter3,
        if_neg (by simp), if_pos ⟨rfl, rfl, rfl⟩, List.nil_append,
        map_idNum_addTask]

set_option maxHeartbeats 2000000 in
theorem catalog_ids_chain :
    chainLtAux 0 ((generateFullCatalogQueue.map (fun t => t.id)).map idKey) = true := by
  decide

theorem catalog_ids_nodup :
    (generateFullCatalogQueue.map (fun t => t.id)).Nodup := by
  have h := chainLtAux_spec _ 0 catalog_ids_chain
  have hne : ((generateFullCatalogQueue.map (fun t => t.id)).map idKey).Pairwise (· ≠ ·) :=
    h.2.imp Nat.ne_of_lt
  exact List.Nodup.of_map idKey hne

/-- C2: `generateFullCatalogQueue` emits, for every (exam family, year,
variant) combination in its range, tasks whose problem numbers are exactly
1..25; years 2000 and 2001 of the AMC 10 and AMC 12 families produce a
single unified variant while every other year of those families produces
exactly the A and B variants; and no two generated tasks share the same
id. -/
theorem generateFullCatalogQueue_spec :
    (∀ y ∈ List.range' AMC8_START_YEAR 41,
        variantsOf .AMC8 y = [if y ≤ 1998 then "AJHSME" else "AMC 8"] ∧
        ∀ v ∈ variantsOf .AMC8 y,
          (tasksOf .AMC8 y v).map idNum = List.range' 1 25) ∧
    (∀ y ∈ List.range' AMC10_12_START_YEAR 26,
        variantsOf .AMC10 y =
          (if y = 2000 ∨ y = 2001 then ["AMC 10"] else ["AMC 10A", "AMC 10B"]) ∧
        ∀ v ∈ variantsOf .AMC10 y,
          (tasksOf .AMC10 y v).map idNum = List.range' 1 25) ∧
    (∀ y ∈ List.range' AMC10_12_START_YEAR 26,
        variantsOf .AMC12 y =
          (if y = 2000 ∨ y = 2001 then ["AMC 12"] else ["AMC 12A", "AMC 12B"]) ∧
        ∀ v ∈ variantsOf .AMC12 y,
          (tasksOf .AMC12 y v).map idNum = List.range' 1 25) ∧
    (generateFullCatalogQueue.map (fun t => t.id)).Nodup :=
  ⟨amc8_year_spec, amc10_year_spec, amc12_year_spec, catalog_ids_nodup⟩

/-- C2 witness: concrete instances of the catalog structure theorem, at
the unified year 2000, a split year 2002, and the newest AMC 8 year. -/
theorem generateFullCatalogQueue_spec_witness :
    variantsOf .AMC10 2000 = ["AMC 10"] ∧
    variantsOf .AMC10 2002 = ["AMC 10A", "AMC 10B"] ∧
    (tasksOf .AMC8 2025 "AMC 8").map idNum = List.range' 1 25 := by
  obtain ⟨h8, h10, h12, hnd⟩ := generateFullCatalogQueue_spec
  obtain ⟨hv10, ht10⟩ := h10 2000 (by decide)
  obtain ⟨hv10b, _⟩ := h10 2002 (by decide)
  obtain ⟨hv8, ht8⟩ := h8 2025 (by decide)
  refine ⟨by simpa using hv10, by simpa using hv10b, ?_⟩
  apply ht8
  have hv8' : variantsOf .AMC8 2025 = ["AMC 8"] := by simpa using hv8
  rw [hv8']
  exact List.mem_singleton.mpr rfl

/-! ## Character and string utilities

The scraper manipulates JavaScript strings; these helpers model the string
operations involved (whitespace classes, case-insensitive comparison,
substring search, trimming) by structural recursion over `List Char`, so
that every definition evaluates by reduction. -/

def jsWs (c : Char) : Bool :=
  c = ' ' || c = '\t' || c = '\n' || c = '\r' || c = '\x0b' || c = '\x0c'

def lowChar (c : Char) : Char :=
  if 'A' ≤ c && c ≤ 'Z' then Char.ofNat (c.toNat + 32) else c

def upChar (c : Char) : Char :=
  if 'a' ≤ c && c ≤ 'z' then Char.ofNat (c.toNat - 32) else c

def startsWithL : List Char → List Char → Bool
  | _, [] => true
  | [], _ :: _ => false
  | c :: cs, p :: ps => c = p && startsWithL cs ps

def startsWithCI : List Char → List Char → Bool
  | _, [] => true
  | [], _ :: _ => false
  | c :: cs, p :: ps => lowChar c = lowChar p && startsWithCI cs ps

def containsSubAux (sub : List Char) : List Char → Bool
  | [] => sub.isEmpty
  | c :: cs => startsWithL (c :: cs) sub || containsSubAux sub cs

def containsSub (s sub : String) : Bool :=
  containsSubAux sub.data s.data

def trimChars (cs : List Char) : List Char :=
  ((cs.dropWhile jsWs).reverse.dropWhile jsWs).reverse

def strTrim (s : String) : String :=
  String.mk (trimChars s.data)

def splitCharAux (sep : Char) : List Char → List Char → List (List Char)
  | [], acc => [acc.reverse]
  | c :: cs, acc =>
      if c = sep then acc.reverse :: splitCharAux sep cs []
      else splitCharAux sep cs (c :: acc)

/-! ## HTML document model

The browser DOM is abstracted to a tree of elements and text nodes with a
tag name (in its DOM `tagName` spelling, i.e. uppercase), an ordered
attribute list and ordered children — exactly the capability set the
scraper uses: tag and attribute access, class membership, text content,
sibling order and serialization back to markup. -/

inductive HNode where
  | text (s : String)
  | elem (tag : String) (attrs : List (String × String)) (children : List HNode)

def getAttr : List (String × String) → String → Option String
  | [], _ => none
  | (k', v) :: rest, k => if k' = k then some v else getAttr rest k

/-- `setAttribute`: replace the value in place when the attribute exists,
append it otherwise. -/
def setAttr : List (String × String) → String → String → List (String × String)
  | [], k, v => [(k, v)]
  | (k', v') :: rest, k, v =>
      if k' = k then (k, v) :: rest else (k', v') :: setAttr rest k v

def hasClass (a : List (String × String)) (cls : String) : Bool :=
  match getAttr a "class" with
  | some c => (splitCharAux ' ' c.data []).contains cls.data
  | none => false

mutual

def textContentNode : HNode → String
  | .text s => s
  | .elem _ _ cs => textContentList cs

def textContentList : List HNode → String
  | [] => ""
  | n :: ns => textContentNode n ++ textContentList ns

end

def serializeAttrs : List (String × String) → String
  | [] => ""
  | (k, v) :: rest => " " ++ k ++ "=\"" ++ v ++ "\"" ++ serializeAttrs rest

mutual

def serializeNode : HNode → String
  | .text s => s
  | .elem t a cs =>
      "<" ++ t ++ serializeAttrs a ++ ">" ++ serializeList cs ++ "</" ++ t ++ ">"

def serializeList : List HNode → String
  | [] => ""
  | n :: ns => serializeNode n ++ serializeList ns

end

/-! Removal of every node matching a predicate, at any depth (models
`querySelectorAll(sel).forEach(e => e.remove())`). -/

mutual

def removeFromNode (p : HNode → Bool) : HNode → HNode
  | .text s => .text s
  | .elem t a cs => .elem t a (removeFromList p cs)

def removeFromList (p : HNode → Bool) : List HNode → List HNode
  | [] => []
  | n :: ns =>
      if p n then removeFromList p ns
      else removeFromNode p n :: removeFromList p ns

end

/-! ## HTML normalizer `cleanAndRestoreLatex`

The source parses `<div>${rawHtml}</div>`, walks the document with three
`querySelectorAll` passes (LaTeX image inlining, image source rewriting
plus collection, link rewriting) and returns `doc.body.innerHTML` — i.e.
the transformed fragment still wrapped in the container `div`. The model
takes the parsed fragment (a node list) and returns node lists; the
wrapper element therefore appears in the `html` field. -/

structure CleanResult where
  html : List HNode
  images : List String

mutual

def latexPassNode : HNode → HNode
  | .text s => .text s
  | .elem t a cs =>
      if t = "IMG" && (hasClass a "latex" || hasClass a "latexcenter") then
        match getAttr a "alt" with
        | some alt =>
            if !startsWithL (trimChars alt.data) ("[asy]".data) then
              .elem "SPAN" [] [.text (" " ++ alt ++ " ")]
            else .elem t a (latexPassList cs)
        | none => .elem t a (latexPassList cs)
      else .elem t a (latexPassList cs)

def latexPassList : List HNode → List HNode
  | [] => []
  | n :: ns => latexPassNode n :: latexPassList ns

end

def rewriteSrc (src : String) : String :=
  if startsWithL src.data ("//".data) then "https:" ++ src
  else if startsWithL src.data ("/".data) then "https://artofproblemsolving.com" ++ src
  else src

mutual

def imgPassNode : HNode → List String → HNode × List String
  | .text s, imgs => (.text s, imgs)
  | .elem t a cs, imgs =>
      if t = "IMG" then
        match getAttr a "src" with
        | some src =>
            let src2 := rewriteSrc src
            let imgs2 := if imgs.contains src2 then imgs else imgs ++ [src2]
            let r := imgPassList cs imgs2
            (.elem t (setAttr a "src" src2) r.1, r.2)
        | none =>
            let r := imgPassList cs imgs
            (.elem t a r.1, r.2)
      else
        let r := imgPassList cs imgs
        (.elem t a r.1, r.2)

def imgPassList : List HNode → List String → List HNode × List String
  | [], imgs => ([], imgs)
  | n :: ns, imgs =>
      let r := imgPassNode n imgs
      let r2 := imgPassList ns r.2
      (r.1 :: r2.1, r2.2)

end

mutual

def linkPassNode : HNode → HNode
  | .text s => .text s
  | .elem t a cs =>
      if t = "A" then
        match getAttr a "href" with
        | some href =>
            if href ≠ "" && startsWithL href.data ("/".data) then
              .elem t
                (setAttr (setAttr a "href" ("https://artofproblemsolving.com" ++ href))
                  "target" "_blank")
                (linkPassList cs)
            else .elem t a (linkPassList cs)
        | none => .elem t a (linkPassList cs)
      else .elem t a (linkPassList cs)

def linkPassList : List HNode → List HNode
  | [] => []
  | n :: ns => linkPassNode n :: linkPassList ns

end

def cleanAndRestoreLatex (rawHtml : List HNode) : CleanResult :=
  let wrapped := HNode.elem "DIV" [] rawHtml
  let step1 := latexPassNode wrapped
  let r := imgPassNode step1 []
  let step3 := linkPassNode r.1
  { html := [step3], images := r.2 }

/-! ## Normalizer lemmas -/

theorem getAttr_setAttr_self : ∀ (a : List (String × String)) (k v : String),
    getAttr (setAttr a k v) k = some v
  | [], k, v => by simp [setAttr, getAttr]
  | (k', v') :: rest, k, v => by
      by_cases h : k' = k
      · simp [setAttr, getAttr, h]
      · simp [setAttr, getAttr, h, getAttr_setAttr_self rest k v]

theorem getAttr_setAttr_ne : ∀ (a : List (String × String)) (k v k' : String),
    k' ≠ k → getAttr (setAttr a k v) k' = getAttr a k'
  | [], k, v, k', h => by
      simp [setAttr, getAttr, if_neg (Ne.symm h)]
  | (k0, v0) :: rest, k, v, k', h => by
      by_cases h0 : k0 = k
      · have hk0 : ¬ k0 = k' := by rw [h0]; exact Ne.symm h
        simp only [setAttr, if_pos h0, getAttr, if_neg (Ne.symm h), if_neg hk0]
      · simp only [setAttr, if_neg h0, getAttr]
        by_cases h1 : k0 = k'
        · simp [if_pos h1]
        · simp [if_neg h1, getAttr_setAttr_ne rest k v k' h]

theorem setAttr_getAttr_eq : ∀ (a : List (String × String)) (k v : String),
    getAttr a k = some v → setAttr a k v = a
  | [], k, v, h => by simp [getAttr] at h
  | (k0, v0) :: rest, k, v, h => by
      by_cases h0 : k0 = k
      · have hv : v0 = v := by
          simpa [getAttr, if_pos h0] using h
        simp [setAttr, if_pos h0, h0, hv]
      · simp only [getAttr, if_neg h0] at h
        simp [setAttr, h0, setAttr_getAttr_eq rest k v h]

theorem hasClass_setAttr_src (a : List (String × String)) (v cls : String) :
    hasClass (setAttr a "src" v) cls = hasClass a cls := by
  unfold hasClass
  rw [getAttr_setAttr_ne a "src" v "class" (by decide)]

theorem getAttr_alt_setAttr_src (a : List (String × String)) (v : String) :
    getAttr (setAttr a "src" v) "alt" = getAttr a "alt" :=
  getAttr_setAttr_ne a "src" v "alt" (by decide)

theorem data_append_str (s t : String) : (s ++ t).data = s.data ++ t.data :=
  String.data_append ..

theorem rewriteSrc_head_h (u : String) (hu : u.data.head? = some 'h') :
    rewriteSrc u = u := by
  unfold rewriteSrc
  rcases hud : u.data with _ | ⟨c, rest⟩
  · simp [hud] at hu
  · rw [hud] at hu
    simp only [List.head?_cons, Option.some.injEq] at hu
    subst hu
    simp [hud, startsWithL]

theorem rewriteSrc_idem (s : String) : rewriteSrc (rewriteSrc s) = rewriteSrc s := by
  by_cases h1 : startsWithL s.data ("//".data) = true
  · have e1 : rewriteSrc s = "https:" ++ s := by
      unfold rewriteSrc
      simp [h1]
    rw [e1]
    exact rewriteSrc_head_h _ (by rw [data_append_str]; rfl)
  · by_cases h2 : startsWithL s.data ("/".data) = true
    · have e2 : rewriteSrc s = "https://artofproblemsolving.com" ++ s := by
        unfold rewriteSrc
        simp [h1, h2]
      rw [e2]
      exact rewriteSrc_head_h _ (by rw [data_append_str]; rfl)
    · have e3 : rewriteSrc s = s := by
        unfold rewriteSrc
        simp [h1, h2]
      rw [e3]
      exact e3

theorem latexPassNode_elem_eq (t : String) (a : List (String × String))
    (cs : List HNode) :
    latexPassNode (.elem t a cs) =
      if (t = "IMG" && (hasClass a "latex" || hasClass a "latexcenter")) = true then
        match getAttr a "alt" with
        | some alt =>
            if (!startsWithL (trimChars alt.data) ("[asy]".data)) = true then
              .elem "SPAN" [] [.text (" " ++ alt ++ " ")]
            else .elem t a (latexPassList cs)
        | none => .elem t a (latexPassList cs)
      else .elem t a (latexPassList cs) := rfl

theorem imgPassNode_elem_eq (t : String) (a : List (String × String))
    (cs : List HNode) (imgs : List String) :
    imgPassNode (.elem t a cs) imgs =
      if t = "IMG" then
        match getAttr a "src" with
        | some src =>
            let src2 := rewriteSrc src
            let imgs2 := if imgs.contains src2 then imgs else imgs ++ [src2]
            let r := imgPassList cs imgs2
            (.elem t (setAttr a "src" src2) r.1, r.2)
        | none =>
            let r := imgPassList cs imgs
            (.elem t a r.1, r.2)
      else
        let r := imgPassList cs imgs
        (.elem t a r.1, r.2) := rfl

theorem linkPassNode_elem_eq (t : String) (a : List (String × String))
    (cs : List HNode) :
    linkPassNode (.elem t a cs) =
      if t = "A" then
        match getAttr a "href" with
        | some href =>
            if (href ≠ "" && startsWithL href.data ("/".data)) = true then
              .elem t
                (setAttr (setAttr a "href" ("https://artofproblemsolving.com" ++ href))
                  "target" "_blank")
                (linkPassList cs)
            else .elem t a (linkPassList cs)
        | none => .elem t a (linkPassList cs)
      else .elem t a (linkPassList cs) := rfl

mutual

theorem latexPass_idem_node : ∀ n : HNode, latexPassNode (latexPassNode n) = latexPassNode n
  | .text s => rfl
  | .elem t a cs => by
      rw [latexPassNode_elem_eq t a cs]
      by_cases hc : (t = "IMG" && (hasClass a "latex" || hasClass a "latexcenter")) = true
      · rw [if_pos hc]
        cases halt : getAttr a "alt" with
        | none =>
            dsimp only
            rw [latexPassNode_elem_eq, if_pos hc, halt, latexPass_idem_list cs]
        | some alt =>
            dsimp only
            by_cases hasy : (!startsWithL (trimChars alt.data) ("[asy]".data)) = true
            · rw [if_pos hasy]
              rw [latexPassNode_elem_eq, if_neg (by decide)]
              simp [latexPassList, latexPassNode]
            · rw [if_neg hasy]
              rw [latexPassNode_elem_eq, if_pos hc, halt]
              dsimp only
              rw [if_neg hasy, latexPass_idem_list cs]
      · rw [if_neg hc]
        rw [latexPassNode_elem_eq, if_neg hc, latexPass_idem_list cs]

theorem latexPass_idem_list : ∀ l : List HNode, latexPassList (latexPassList l) = latexPassList l
  | [] => rfl
  | n :: ns => by
      rw [latexPassList, latexPassList, latexPass_idem_node n, latexPass_idem_list ns]

end

theorem latexCond_false_of_ne {t : String} (h : t ≠ "IMG") (a : List (String × String)) :
    ¬((t = "IMG" && (hasClass a "latex" || hasClass a "latexcenter")) = true) := by
  intro hcc
  rw [Bool.and_eq_true] at hcc
  exact h (of_decide_eq_true hcc.1)

mutual

theorem latexPass_imgPass_node : ∀ (n : HNode) (l : List String),
    latexPassNode ((imgPassNode (latexPassNode n) l).1) =
      (imgPassNode (latexPassNode n) l).1
  | .text s, l => rfl
  | .elem t a cs, l => by
      rw [latexPassNode_elem_eq t a cs]
      by_cases hc : (t = "IMG" && (hasClass a "latex" || hasClass a "latexcenter")) = true
      · have ht : t = "IMG" := by
          have hc2 := hc
          rw [Bool.and_eq_true] at hc2
          exact of_decide_eq_true hc2.1
        rw [if_pos hc]
        cases halt : getAttr a "alt" with
        | none =>
            dsimp only
            rw [imgPassNode_elem_eq, if_pos ht]
            cases hsrc : getAttr a "src" with
            | none =>
                dsimp only
                rw [latexPassNode_elem_eq, if_pos hc, halt]
                dsimp only
                rw [latexPass_imgPass_list cs l]
            | some src =>
                dsimp only
                rw [latexPassNode_elem_eq,
                  if_pos (by rw [hasClass_setAttr_src, hasClass_setAttr_src]; exact hc),
                  getAttr_alt_setAttr_src, halt]
                dsimp only
                rw [latexPass_imgPass_list cs _]
        | some alt =>
            dsimp only
            by_cases hasy : (!startsWithL (trimChars alt.data) ("[asy]".data)) = true
            · rw [if_pos hasy]
              rw [imgPassNode_elem_eq, if_neg (by decide)]
              dsimp only
              rw [latexPassNode_elem_eq, if_neg (by decide)]
              simp [imgPassList, imgPassNode, latexPassList, latexPassNode]
            · rw [if_neg hasy]
              rw [imgPassNode_elem_eq, if_pos ht]
              cases hsrc : getAttr a "src" with
              | none =>
                  dsimp only
                  rw [latexPassNode_elem_eq, if_pos hc, halt]
                  dsimp only
                  rw [if_neg hasy, latexPass_imgPass_list cs l]
              | some src =>
                  dsimp only
                  rw [latexPassNode_elem_eq,
                    if_pos (by rw [hasClass_setAttr_src, hasClass_setAttr_src]; exact hc),
                    getAttr_alt_setAttr_src, halt]
                  dsimp only
                  rw [if_neg hasy, latexPass_imgPass_list cs _]
      · rw [if_neg hc]
        rw [imgPassNode_elem_eq]
        by_cases ht : t = "IMG"
        · rw [if_pos ht]
          cases hsrc : getAttr a "src" with
          | none =>
              dsimp only
              rw [latexPassNode_elem_eq, if_neg hc, latexPass_imgPass_list cs l]
          | some src =>
              dsimp only
              rw [latexPassNode_elem_eq,
                if_neg (by rw [hasClass_setAttr_src, hasClass_setAttr_src]; exact hc)]
              rw [latexPass_imgPass_list cs _]
        · rw [if_neg ht]
          dsimp only
          rw [latexPassNode_elem_eq, if_neg hc, latexPass_imgPass_list cs l]

theorem latexPass_imgPass_list : ∀ (l : List HNode) (imgs : List String),
    latexPassList ((imgPassList (latexPassList l) imgs).1) =
      (imgPassList (latexPassList l) imgs).1
  | [], imgs => rfl
  | n :: ns, imgs => by
      rw [latexPassList, imgPassList]
      dsimp only
      rw [latexPassList, latexPass_imgPass_node n imgs, latexPass_imgPass_list ns _]

end

theorem latexPass_fixed_inv {t : String} {a : List (String × String)} {cs : List HNode}
    (hfix : latexPassNode (.elem t a cs) = .elem t a cs) :
    latexPassList cs = cs ∧
    ((t = "IMG" && (hasClass a "latex" || hasClass a "latexcenter")) = true →
      ∀ alt, getAttr a "alt" = some alt →
        startsWithL (trimChars alt.data) ("[asy]".data) = true) := by
  rw [latexPassNode_elem_eq] at hfix
  by_cases hc : (t = "IMG" && (hasClass a "latex" || hasClass a "latexcenter")) = true
  · have ht : t = "IMG" := by
      have hc2 := hc
      rw [Bool.and_eq_true] at hc2
      exact of_decide_eq_true hc2.1
    rw [if_pos hc] at hfix
    cases halt : getAttr a "alt" with
    | none =>
        rw [halt] at hfix
        dsimp only at hfix
        refine ⟨(HNode.elem.injEq _ _ _ _ _ _ ▸ hfix).2.2, ?_⟩
        intro _ alt halt2
        exact Option.noConfusion halt2
    | some alt =>
        rw [halt] at hfix
        dsimp only at hfix
        by_cases hasy : (!startsWithL (trimChars alt.data) ("[asy]".data)) = true
        · rw [if_pos hasy] at hfix
          have hspan := (HNode.elem.injEq _ _ _ _ _ _ ▸ hfix).1
          exact absurd (hspan.trans ht) (by decide)
        · rw [if_neg hasy] at hfix
          refine ⟨(HNode.elem.injEq _ _ _ _ _ _ ▸ hfix).2.2, ?_⟩
          intro _ alt2 halt2
          injection halt2 with heq2
          subst heq2
          simpa using hasy
  · rw [if_neg hc] at hfix
    exact ⟨(HNode.elem.injEq _ _ _ _ _ _ ▸ hfix).2.2, fun hcc => absurd hcc hc⟩

mutual

theorem latexPass_linkPass_node : ∀ n : HNode, latexPassNode n = n →
    latexPassNode (linkPassNode n) = linkPassNode n
  | .text s, _ => rfl
  | .elem t a cs, hfix => by
      obtain ⟨hcs, hrep⟩ := latexPass_fixed_inv hfix
      rw [linkPassNode_elem_eq]
      by_cases ht : t = "A"
      · have htne : t ≠ "IMG" := by
          rw [ht]
          decide
        rw [if_pos ht]
        cases hhref : getAttr a "href" with
        | some href =>
            dsimp only
            by_cases hcond : (href ≠ "" && startsWithL href.data ("/".data)) = true
            · rw [if_pos hcond]
              rw [latexPassNode_elem_eq, if_neg (latexCond_false_of_ne htne _),
                latexPass_linkPass_list cs hcs]
            · rw [if_neg hcond]
              rw [latexPassNode_elem_eq, if_neg (latexCond_false_of_ne htne _),
                latexPass_linkPass_list cs hcs]
        | none =>
            dsimp only
            rw [latexPassNode_elem_eq, if_neg (latexCond_false_of_ne htne _),
              latexPass_linkPass_list cs hcs]
      · rw [if_neg ht]
        by_cases hc : (t = "IMG" && (hasClass a "latex" || hasClass a "latexcenter")) = true
        · rw [latexPassNode_elem_eq, if_pos hc]
          cases halt : getAttr a "alt" with
          | some alt =>
              dsimp only
              have hasy := hrep hc alt halt
              rw [if_neg (by rw [hasy]; decide), latexPass_linkPass_list cs hcs]
          | none =>
              dsimp only
              rw [latexPass_linkPass_list cs hcs]
        · rw [latexPassNode_elem_eq, if_neg hc, latexPass_linkPass_list cs hcs]

theorem latexPass_linkPass_list : ∀ l : List HNode, latexPassList l = l →
    latexPassList (linkPassList l) = linkPassList l
  | [], _ => rfl
  | n :: ns, hl => by
      rw [latexPassList] at hl
      injection hl with h1 h2
      rw [linkPassList, latexPassList, latexPass_linkPass_node n h1,
        latexPass_linkPass_list ns h2]

end

mutual

theorem imgPass_fst_const : ∀ (n : HNode) (l l' : List String),
    (imgPassNode n l).1 = (imgPassNode n l').1
  | .text s, _, _ => rfl
  | .elem t a cs, l, l' => by
      rw [imgPassNode_elem_eq, imgPassNode_elem_eq]
      by_cases ht : t = "IMG"
      · rw [if_pos ht, if_pos ht]
        cases hsrc : getAttr a "src" with
        | some src =>
            dsimp only
            rw [imgPassList_fst_const cs _ _]
        | none =>
            dsimp only
            rw [imgPassList_fst_const cs l l']
      · rw [if_neg ht, if_neg ht]
        dsimp only
        rw [imgPassList_fst_const cs l l']

theorem imgPassList_fst_const : ∀ (l : List HNode) (i i' : List String),
    (imgPassList l i).1 = (imgPassList l i').1
  | [], _, _ => rfl
  | n :: ns, i, i' => by
      rw [imgPassList, imgPassList]
      dsimp only
      rw [imgPass_fst_const n i i', imgPassList_fst_const ns _ _]

end

mutual

theorem imgPass_idem_node : ∀ (n : HNode) (l l' : List String),
    (imgPassNode ((imgPassNode n l).1) l').1 = (imgPassNode n l).1
  | .text s, _, _ => rfl
  | .elem t a cs, l, l' => by
      rw [imgPassNode_elem_eq t a cs]
      by_cases ht : t = "IMG"
      · rw [if_pos ht]
        cases hsrc : getAttr a "src" with
        | some src =>
            dsimp only
            rw [imgPassNode_elem_eq, if_pos ht, getAttr_setAttr_self]
            dsimp only
            rw [rewriteSrc_idem,
              setAttr_getAttr_eq _ _ _ (getAttr_setAttr_self a "src" (rewriteSrc src)),
              imgPass_idem_list cs _ _]
        | none =>
            dsimp only
            rw [imgPassNode_elem_eq, if_pos ht, hsrc]
            dsimp only
            rw [imgPass_idem_list cs _ _]
      · rw [if_neg ht]
        dsimp only
        rw [imgPassNode_elem_eq, if_neg ht]
        dsimp only
        rw [imgPass_idem_list cs _ _]

theorem imgPass_idem_list : ∀ (l : List HNode) (i i' : List String),
    (imgPassList ((imgPassList l i).1) i').1 = (imgPassList l i).1
  | [], _, _ => rfl
  | n :: ns, i, i' => by
      rw [imgPassList]
      dsimp only
      rw [imgPassList]
      dsimp only
      rw [imgPass_idem_node n i _, imgPass_idem_list ns _ _]

end

theorem imgPass_fixed_inv {t : String} {a : List (String × String)} {cs : List HNode}
    (hfix : (imgPassNode (.elem t a cs) []).1 = .elem t a cs) :
    (∀ l, (imgPassList cs l).1 = cs) ∧
    (t = "IMG" → ∀ src, getAttr a "src" = some src →
      setAttr a "src" (rewriteSrc src) = a) := by
  rw [imgPassNode_elem_eq] at hfix
  by_cases ht : t = "IMG"
  · rw [if_pos ht] at hfix
    cases hsrc : getAttr a "src" with
    | some src =>
        rw [hsrc] at hfix
        dsimp only at hfix
        have h1 := (HNode.elem.injEq _ _ _ _ _ _ ▸ hfix).2.1
        have h2 := (HNode.elem.injEq _ _ _ _ _ _ ▸ hfix).2.2
        refine ⟨fun l => (imgPassList_fst_const cs l _).trans h2, ?_⟩
        intro _ src2 hsrc2
        injection hsrc2 with hsrc3
        subst hsrc3
        exact h1
    | none =>
        rw [hsrc] at hfix
        dsimp only at hfix
        have h2 := (HNode.elem.injEq _ _ _ _ _ _ ▸ hfix).2.2
        refine ⟨fun l => (imgPassList_fst_const cs l _).trans h2, ?_⟩
        intro _ src2 hsrc2
        exact Option.noConfusion hsrc2
  · rw [if_neg ht] at hfix
    dsimp only at hfix
    have h2 := (HNode.elem.injEq _ _ _ _ _ _ ▸ hfix).2.2
    exact ⟨fun l => (imgPassList_fst_const cs l _).trans h2, fun ht2 => absurd ht2 ht⟩

mutual

theorem imgPass_linkPass_node : ∀ n : HNode, (imgPassNode n []).1 = n →
    ∀ l, (imgPassNode (linkPassNode n) l).1 = linkPassNode n
  | .text s, _, _ => rfl
  | .elem t a cs, hfix, l => by
      obtain ⟨hcs, hsrcfix⟩ := imgPass_fixed_inv hfix
      rw [linkPassNode_elem_eq]
      by_cases ht : t = "A"
      · have htimg : t ≠ "IMG" := by
          rw [ht]
          decide
        rw [if_pos ht]
        cases hhref : getAttr a "href" with
        | some href =>
            dsimp only
            by_cases hcond : (href ≠ "" && startsWithL href.data ("/".data)) = true
            · rw [if_pos hcond]
              rw [imgPassNode_elem_eq, if_neg htimg]
              dsimp only
              rw [imgPass_linkPass_list cs hcs l]
            · rw [if_neg hcond]
              rw [imgPassNode_elem_eq, if_neg htimg]
              dsimp only
              rw [imgPass_linkPass_list cs hcs l]
        | none =>
            dsimp only
            rw [imgPassNode_elem_eq, if_neg htimg]
            dsimp only
            rw [imgPass_linkPass_list cs hcs l]
      · rw [if_neg ht]
        rw [imgPassNode_elem_eq]
        by_cases htimg : t = "IMG"
        · rw [if_pos htimg]
          cases hsrc : getAttr a "src" with
          | some src =>
              dsimp only
              rw [hsrcfix htimg src hsrc, imgPass_linkPass_list cs hcs _]
          | none =>
              dsimp only
              rw [imgPass_linkPass_list cs hcs l]
        · rw [if_neg htimg]
          dsimp only
          rw [imgPass_linkPass_list cs hcs l]

theorem imgPass_linkPass_list : ∀ ns : List HNode, (∀ l, (imgPassList ns l).1 = ns) →
    ∀ l, (imgPassList (linkPassList ns) l).1 = linkPassList ns
  | [], _, _ => rfl
  | n :: ns, h, l => by
      have h0 := h []
      rw [imgPassList] at h0
      dsimp only at h0
      injection h0 with h1 h2
      have hns : ∀ i, (imgPassList ns i).1 = ns :=
        fun i => (imgPassList_fst_const ns i _).trans h2
      rw [linkPassList, imgPassList]
      dsimp only
      rw [imgPass_linkPass_node n h1 l, imgPass_linkPass_list ns hns _]

end

mutual

theorem linkPass_idem_node : ∀ n : HNode, linkPassNode (linkPassNode n) = linkPassNode n
  | .text s => rfl
  | .elem t a cs => by
      rw [linkPassNode_elem_eq t a cs]
      by_cases ht : t = "A"
      · rw [if_pos ht]
        cases hhref : getAttr a "href" with
        | some href =>
            dsimp only
            by_cases hcond : (href ≠ "" && startsWithL href.data ("/".data)) = true
            · rw [if_pos hcond]
              rw [linkPassNode_elem_eq, if_pos ht,
                getAttr_setAttr_ne _ "target" "_blank" "href" (by decide),
                getAttr_setAttr_self]
              dsimp only
              have hsw : startsWithL
                  ("https://artofproblemsolving.com" ++ href).data ("/".data) = false := by
                rw [data_append_str]
                rfl
              rw [if_neg (by
                intro hcc
                rw [Bool.and_eq_true] at hcc
                exact Bool.false_ne_true (hsw ▸ hcc.2)), linkPass_idem_list cs]
            · rw [if_neg hcond]
              rw [linkPassNode_elem_eq, if_pos ht, hhref]
              dsimp only
              rw [if_neg hcond, linkPass_idem_list cs]
        | none =>
            dsimp only
            rw [linkPassNode_elem_eq, if_pos ht, hhref]
            dsimp only
            rw [linkPass_idem_list cs]
      · rw [if_neg ht]
        rw [linkPassNode_elem_eq, if_neg ht, linkPass_idem_list cs]

theorem linkPass_idem_list : ∀ l : List HNode, linkPassList (linkPassList l) = linkPassList l
  | [] => rfl
  | n :: ns => by
      rw [linkPassList, linkPassList, linkPass_idem_node n, linkPass_idem_list ns]

end

mutual

def absNode : HNode → Bool
  | .text _ => true
  | .elem t a cs =>
      (if t = "IMG" then
        match getAttr a "src" with
        | some src => startsWithL src.data ("http".data)
        | none => true
      else true) &&
      (if t = "A" then
        match getAttr a "href" with
        | some href => startsWithL href.data ("http".data)
        | none => true
      else true) && absList cs

def absList : List HNode → Bool
  | [] => true
  | n :: ns => absNode n && absList ns

end

/-- Already-absolute content: every image source and link target in the
fragment is an absolute (`http…`) URL. -/
def allSrcHrefAbsolute (l : List HNode) : Bool := absList l

theorem cleanAndRestoreLatex_eq (x : List HNode) :
    cleanAndRestoreLatex x =
      { html := [linkPassNode (imgPassNode (latexPassNode (HNode.elem "DIV" [] x)) []).1]
        images := (imgPassNode (latexPassNode (HNode.elem "DIV" [] x)) []).2 } := rfl

def cleanIdemSample : List HNode :=
  [HNode.elem "P" [] [HNode.text "An example paragraph."]]

/-- C6 counterexample: `cleanAndRestoreLatex` is not idempotent even on
already-absolute content, because each run re-wraps the fragment in one
more container `div` (the output is `doc.body.innerHTML` of a document
built from `<div>${rawHtml}</div>`). -/
theorem cleanAndRestoreLatex_not_idempotent :
    allSrcHrefAbsolute cleanIdemSample = true ∧
    (cleanAndRestoreLatex ((cleanAndRestoreLatex cleanIdemSample).html)).html ≠
      (cleanAndRestoreLatex cleanIdemSample).html := by
  refine ⟨by decide, ?_⟩
  intro h
  exact absurd (congrArg serializeList h) (by decide)

/-- C6 amended: on content whose image sources and link targets are
already absolute, a second application of `cleanAndRestoreLatex` to the
html output of a first application changes nothing except wrapping that
output in one more container `div` element. -/
theorem cleanAndRestoreLatex_idem_amended (x : List HNode)
    (habs : allSrcHrefAbsolute x = true) :
    (cleanAndRestoreLatex ((cleanAndRestoreLatex x).html)).html =
      [HNode.elem "DIV" [] ((cleanAndRestoreLatex x).html)] := by
  rw [cleanAndRestoreLatex_eq x, cleanAndRestoreLatex_eq]
  dsimp only
  have hw_latex : latexPassNode
      (linkPassNode (imgPassNode (latexPassNode (HNode.elem "DIV" [] x)) []).1) =
      linkPassNode (imgPassNode (latexPassNode (HNode.elem "DIV" [] x)) []).1 :=
    latexPass_linkPass_node _ (latexPass_imgPass_node (HNode.elem "DIV" [] x) [])
  have hw_img : ∀ l, (imgPassNode
      (linkPassNode (imgPassNode (latexPassNode (HNode.elem "DIV" [] x)) []).1) l).1 =
      linkPassNode (imgPassNode (latexPassNode (HNode.elem "DIV" [] x)) []).1 :=
    imgPass_linkPass_node _ (imgPass_idem_node (latexPassNode (HNode.elem "DIV" [] x)) [] [])
  have hw_link : linkPassNode
      (linkPassNode (imgPassNode (latexPassNode (HNode.elem "DIV" [] x)) []).1) =
      linkPassNode (imgPassNode (latexPassNode (HNode.elem "DIV" [] x)) []).1 :=
    linkPass_idem_node _
  have e1 : latexPassNode (HNode.elem "DIV" []
      [linkPassNode (imgPassNode (latexPassNode (HNode.elem "DIV" [] x)) []).1]) =
      HNode.elem "DIV" []
        [linkPassNode (imgPassNode (latexPassNode (HNode.elem "DIV" [] x)) []).1] := by
    rw [latexPassNode_elem_eq, if_neg (latexCond_false_of_ne (by decide) _)]
    rw [latexPassList, hw_latex, latexPassList]
  have e2 : (imgPassNode (HNode.elem "DIV" []
      [linkPassNode (imgPassNode (latexPassNode (HNode.elem "DIV" [] x)) []).1]) []).1 =
      HNode.elem "DIV" []
        [linkPassNode (imgPassNode (latexPassNode (HNode.elem "DIV" [] x)) []).1] := by
    rw [imgPassNode_elem_eq, if_neg (by decide : ¬("DIV" = "IMG"))]
    dsimp only
    rw [imgPassList]
    dsimp only
    rw [hw_img [], imgPassList]
  have e3 : linkPassNode (HNode.elem "DIV" []
      [linkPassNode (imgPassNode (latexPassNode (HNode.elem "DIV" [] x)) []).1]) =
      HNode.elem "DIV" []
        [linkPassNode (imgPassNode (latexPassNode (HNode.elem "DIV" [] x)) []).1] := by
    rw [linkPassNode_elem_eq, if_neg (by decide : ¬("DIV" = "A"))]
    rw [linkPassList, hw_link, linkPassList]
  rw [e1, e2, e3]

def cleanIdemWitnessInput : List HNode :=
  [HNode.elem "IMG" [("src", "https://example.com/x.png")] [],
   HNode.elem "A" [("href", "https://artofproblemsolving.com/wiki")] [HNode.text "link"]]

/-- C6 witness: the amended idempotence theorem applied to a concrete
already-absolute fragment. -/
theorem cleanAndRestoreLatex_idem_amended_witness :
    allSrcHrefAbsolute cleanIdemWitnessInput = true ∧
    (cleanAndRestoreLatex ((cleanAndRestoreLatex cleanIdemWitnessInput).html)).html =
      [HNode.elem "DIV" [] ((cleanAndRestoreLatex cleanIdemWitnessInput).html)] :=
  ⟨by decide, cleanAndRestoreLatex_idem_amended _ (by decide)⟩

/-! ## Document segmenter

The assembler walks the element siblings after the recognized content
root, in modes `question → solution` with an immediate stop on a
"See also" level-2 heading (the source's `done` mode is entered and the
loop `break`s at once, so it is represented by returning). -/

inductive SegMode
  | question
  | solution
deriving DecidableEq, Repr

/-- Synthesized sub-heading the segmenter prepends when a Solution
heading triggers (`<h3 class="...">${h3Title}</h3>`). -/
def synthH3 (title : String) : HNode :=
  .elem "H3"
    [("class", "font-bold text-lg mt-6 mb-3 text-slate-800 border-b border-slate-200 pb-2")]
    [.text title]

mutual

def findMwHeadlineNode : HNode → Option String
  | .text _ => none
  | .elem _ a cs =>
      if hasClass a "mw-headline" then some ((getAttr a "id").getD "")
      else findMwHeadlineList cs

def findMwHeadlineList : List HNode → Option String
  | [] => none
  | n :: ns =>
      match findMwHeadlineNode n with
      | some r => some r
      | none => findMwHeadlineList ns

end

/-- `curr.id || curr.querySelector('.mw-headline')?.id || ""`. -/
def elemId (a : List (String × String)) (cs : List HNode) : String :=
  let own := (getAttr a "id").getD ""
  if own ≠ "" then own
  else (findMwHeadlineList cs).getD ""

def isSolutionHeading (t text id : String) : Bool :=
  t = "H2" && (containsSub text "Solution" || containsSub id "Solution" ||
    containsSub text "Video Solution")

def isSeeAlsoHeading (t text id : String) : Bool :=
  t = "H2" && (containsSub text "See also" || containsSub text "See Also" ||
    containsSub id "See_Also")

def segmentWalk : List HNode → SegMode → List HNode → List HNode →
    List HNode × List HNode
  | [], _, qa, sa => (qa, sa)
  | .text _ :: rest, mode, qa, sa => segmentWalk rest mode qa sa
  | .elem t a cs :: rest, mode, qa, sa =>
      let text := textContentList cs
      let id := elemId a cs
      if isSolutionHeading t text id then
        segmentWalk rest .solution qa (sa ++ [synthH3 (strTrim text)])
      else if isSeeAlsoHeading t text id then
        (qa, sa)
      else
        match mode with
        | .question => segmentWalk rest mode (qa ++ [.elem t a cs]) sa
        | .solution => segmentWalk rest mode qa (sa ++ [.elem t a cs])

/-- C4: the document segmenter never appends a triggering "Solution" or
"See also" level-2 heading's own markup to either accumulator — a
Solution trigger only prepends the synthesized sub-heading built from the
trigger's text — and once a "See also" heading is reached the walk
returns the accumulators unchanged, so no subsequent sibling is ever
accumulated regardless of its content. -/
theorem segmentWalk_spec :
    (∀ (t : String) (a : List (String × String)) (cs rest : List HNode)
        (mode : SegMode) (qa sa : List HNode),
      isSolutionHeading t (textContentList cs) (elemId a cs) = true →
      segmentWalk (.elem t a cs :: rest) mode qa sa =
        segmentWalk rest .solution qa
          (sa ++ [synthH3 (strTrim (textContentList cs))])) ∧
    (∀ (t : String) (a : List (String × String)) (cs rest : List HNode)
        (mode : SegMode) (qa sa : List HNode),
      isSeeAlsoHeading t (textContentList cs) (elemId a cs) = true →
      isSolutionHeading t (textContentList cs) (elemId a cs) = false →
      segmentWalk (.elem t a cs :: rest) mode qa sa = (qa, sa)) := by
  constructor
  · intro t a cs rest mode qa sa hsol
    rw [segmentWalk.eq_def]
    dsimp only
    rw [if_pos hsol]
  · intro t a cs rest mode qa sa hsee hsol
    rw [segmentWalk.eq_def]
    dsimp only
    rw [if_neg (by rw [hsol]; exact Bool.false_ne_true), if_pos hsee]

def solHeadingSample : HNode :=
  .elem "H2" []
    [.elem "SPAN" [("class", "mw-headline"), ("id", "Solution_1")] [.text "Solution 1"]]

def seeAlsoSample : HNode :=
  .elem "H2" [] [.text "See Also"]

def trailerSample : HNode :=
  .elem "P" [] [.text "navigation box"]

/-- C4 witness: the segmenter spec applied to a concrete "Solution 1"
heading and a concrete "See Also" heading followed by trailer content. -/
theorem segmentWalk_spec_witness :
    segmentWalk [solHeadingSample, trailerSample] .question [] [] =
      segmentWalk [trailerSample] .solution []
        ([] ++ [synthH3 (strTrim (textContentList
          [.elem "SPAN" [("class", "mw-headline"), ("id", "Solution_1")]
            [.text "Solution 1"]]))]) ∧
    segmentWalk [seeAlsoSample, trailerSample] .solution [] [] = ([], []) :=
  ⟨segmentWalk_spec.1 "H2" []
      [.elem "SPAN" [("class", "mw-headline"), ("id", "Solution_1")] [.text "Solution 1"]]
      [trailerSample] .question [] [] (by decide),
   segmentWalk_spec.2 "H2" [] [.text "See Also"] [trailerSample] .solution [] []
      (by decide) (by decide)⟩

/-! ## Answer extractor

The assembler's regex extraction is modelled by deterministic scanners:
each JavaScript pattern is parsed position by position (the patterns'
optional tokens never overlap with what follows, so regex backtracking
collapses to deterministic choice), and `scanFor` finds the leftmost
match, as `String.match` does. -/

def isAnswerLetter (c : Char) : Bool :=
  ('A' ≤ c && c ≤ 'E') || ('a' ≤ c && c ≤ 'e')

def expectChar (ch : Char) : List Char → Option (List Char)
  | c :: cs => if c = ch then some cs else none
  | [] => none

def parseOpt (ch : Char) : List Char → List Char
  | c :: cs => if c = ch then cs else c :: cs
  | [] => []

def skipWs (cs : List Char) : List Char := cs.dropWhile jsWs

def parseLitCI : List Char → List Char → Option (List Char)
  | [], cs => some cs
  | _ :: _, [] => none
  | p :: ps, c :: cs => if lowChar c = lowChar p then parseLitCI ps cs else none

def parseAE : List Char → Option (Char × List Char)
  | c :: cs => if isAnswerLetter c then some (c, cs) else none
  | [] => none

/-- Pattern `\boxed\s*\{\s*\\?textbf\s*\{\s*\(?\s*([A-E])\s*\)?\s*\}\s*\}` (i). -/
def tryBoxedTextbfAt (cs0 : List Char) : Option Char := do
  let cs ← parseLitCI ("\\boxed".data) cs0
  let cs := skipWs cs
  let cs ← expectChar '{' cs
  let cs := skipWs cs
  let cs := parseOpt '\\' cs
  let cs ← parseLitCI ("textbf".data) cs
  let cs := skipWs cs
  let cs ← expectChar '{' cs
  let cs := skipWs cs
  let cs := parseOpt '(' cs
  let cs := skipWs cs
  let (letter, cs2) ← parseAE cs
  let cs := skipWs cs2
  let cs := parseOpt ')' cs
  let cs := skipWs cs
  let cs ← expectChar '}' cs
  let cs := skipWs cs
  let _ ← expectChar '}' cs
  return letter

/-- Pattern `\boxed\s*\{\s*\(?\s*([A-E])\s*\)?\s*\}` (i). -/
def tryBoxedAt (cs0 : List Char) : Option Char := do
  let cs ← parseLitCI ("\\boxed".data) cs0
  let cs := skipWs cs
  let cs ← expectChar '{' cs
  let cs := skipWs cs
  let cs := parseOpt '(' cs
  let cs := skipWs cs
  let (letter, cs2) ← parseAE cs
  let cs := skipWs cs2
  let cs := parseOpt ')' cs
  let cs := skipWs cs
  let _ ← expectChar '}' cs
  return letter

/-- Pattern `answer is\s*\(?([A-E])\)?` (i); the trailing optional paren
never affects whether the pattern matches. -/
def tryAnswerIsAt (cs0 : List Char) : Option Char := do
  let cs ← parseLitCI ("answer is".data) cs0
  let cs := skipWs cs
  let cs := parseOpt '(' cs
  let (letter, _) ← parseAE cs
  return letter

def scanFor (f : List Char → Option Char) : List Char → Option Char
  | [] => f []
  | c :: cs =>
      match f (c :: cs) with
      | some r => some r
      | none => scanFor f cs

def dropTagAux : List Char → Option (List Char)
  | [] => none
  | c :: cs => if c = '>' then some cs else dropTagAux cs

/-- One match of `<[^>]+>`: at least one non-`>` character, then `>`. -/
def dropTag : List Char → Option (List Char)
  | [] => none
  | c :: cs => if c = '>' then none else dropTagAux cs

def stripTagsFuel : Nat → List Char → List Char
  | 0, cs => cs
  | _ + 1, [] => []
  | fuel + 1, c :: cs =>
      if c = '<' then
        match dropTag cs with
        | some rest => stripTagsFuel fuel rest
        | none => c :: stripTagsFuel fuel cs
      else c :: stripTagsFuel fuel cs

/-- `html.replace(/<[^>]+>/g, '')`. -/
def stripTags (s : String) : String :=
  String.mk (stripTagsFuel (s.data.length + 1) s.data)

/-- `extractCorrectOptionWithAI`: the AI call either throws (caught,
yielding `""`), returns no text, or returns text that is trimmed,
uppercased, stripped of everything outside A–E and cut to its first
character. -/
def extractCorrectOptionWithAI (ai : Except String (Option String)) : String :=
  match ai with
  | .error _ => ""
  | .ok none => ""
  | .ok (some t) =>
      let cleaned := ((trimChars t.data).map upChar).filter (fun c => 'A' ≤ c && c ≤ 'E')
      match cleaned with
      | [] => ""
      | c :: _ => String.mk [c]

/-- Answer extraction of `fetchAoPSProblem`: boxed-textbf pattern, then
plain boxed pattern, then the prose pattern on tag-stripped text, then
the AI fallback. -/
def extractCorrectOption (solutionHtml : String)
    (ai : Except String (Option String)) : String :=
  match scanFor tryBoxedTextbfAt solutionHtml.data with
  | some c => String.mk [c]
  | none =>
      match scanFor tryBoxedAt solutionHtml.data with
      | some c => String.mk [c]
      | none =>
          match scanFor tryAnswerIsAt (stripTags solutionHtml).data with
          | some c => String.mk [c]
          | none => extractCorrectOptionWithAI ai

/-- C3: when the solution HTML contains a boxed-answer pattern (either
form) yielding letter `x` and the tag-stripped text contains a
conflicting prose "answer is" pattern yielding letter `y`, the extractor
returns the boxed letter `x`: strategies are tried in order and the
first match wins. -/
theorem extractCorrectOption_boxed_wins (html : String)
    (ai : Except String (Option String)) (x y : Char)
    (hbox : scanFor tryBoxedTextbfAt html.data = some x ∨
      (scanFor tryBoxedTextbfAt html.data = none ∧
        scanFor tryBoxedAt html.data = some x))
    (hprose : scanFor tryAnswerIsAt (stripTags html).data = some y)
    (hconflict : y ≠ x) :
    extractCorrectOption html ai = String.mk [x] := by
  unfold extractCorrectOption
  rcases hbox with h1 | ⟨h1, h2⟩
  · rw [h1]
  · rw [h1, h2]

def conflictSolutionHtml : String :=
  "<p>Thus \\boxed\x7b\\textbf\x7b(B)\x7d\x7d. Some say the answer is (D).</p>"

/-- C3 witness: on a concrete solution containing `\boxed{\textbf{(B)}}`
and the conflicting prose "answer is (D)", the extractor returns "B". -/
theorem extractCorrectOption_boxed_wins_witness :
    extractCorrectOption conflictSolutionHtml (.error "offline") = String.mk ['B'] :=
  extractCorrectOption_boxed_wins conflictSolutionHtml (.error "offline") 'B' 'D'
    (Or.inl (by decide)) (by decide) (by decide)

/-! ## Proxy fetcher `fetchViaProxy`

The two network round trips are oracle inputs: the primary CORS relay
reply (HTTP success flag and body text) and the fallback JSON-wrapped
relay reply (success flag and optional `contents` field; `none` models an
absent field, and the source's falsy check also rejects an empty
string). -/

structure ProxyEnv where
  primaryOk : Bool
  primaryBody : String
  backupOk : Bool
  backupContents : Option String
deriving DecidableEq, Repr

/-- Primary attempt: non-2xx status throws, then `!text || text.length < 100`
throws ("Empty contents"). -/
def primaryAttempt (env : ProxyEnv) : Except String String :=
  if !env.primaryOk then .error "Primary Proxy Error"
  else if env.primaryBody.length < 100 then .error "Empty contents"
  else .ok env.primaryBody

/-- Backup attempt: non-2xx status throws, then `!data.contents` throws —
there is no minimum-length guard on this path. -/
def backupAttempt (env : ProxyEnv) : Except String String :=
  if !env.backupOk then .error "Backup Proxy Error"
  else
    match env.backupContents with
    | none => .error "Empty contents from backup"
    | some c => if c = "" then .error "Empty contents from backup" else .ok c

def fetchViaProxy (env : ProxyEnv) (retries : Nat := 1) : Except String String :=
  match primaryAttempt env with
  | .ok t => .ok t
  | .error e => if retries > 0 then backupAttempt env else .error e

/-- C10: `fetchViaProxy` rejects a primary response whose status is not
successful or whose body is shorter than 100 characters and falls back to
the backup proxy; the backup response is accepted whenever its `contents`
field is present and non-empty, with no length guard, so the function can
return a body shorter than 100 characters via the fallback. -/
theorem fetchViaProxy_spec :
    (∀ (env : ProxyEnv) (r : Nat), 0 < r →
      env.primaryOk = false ∨ env.primaryBody.length < 100 →
      fetchViaProxy env r = backupAttempt env) ∧
    (∀ (env : ProxyEnv) (r : Nat) (c : String), 0 < r →
      (env.primaryOk = false ∨ env.primaryBody.length < 100) →
      env.backupOk = true → env.backupContents = some c → c ≠ "" →
      fetchViaProxy env r = .ok c) ∧
    (∃ (env : ProxyEnv) (body : String),
      fetchViaProxy env 1 = .ok body ∧ body.length < 100) := by
  have hprim : ∀ env : ProxyEnv,
      env.primaryOk = false ∨ env.primaryBody.length < 100 →
      ∃ e, primaryAttempt env = .error e := by
    intro env h
    rcases h with h | h
    · exact ⟨"Primary Proxy Error", by simp [primaryAttempt, h]⟩
    · by_cases hok : env.primaryOk
      · exact ⟨"Empty contents", by simp [primaryAttempt, hok, h]⟩
      · exact ⟨"Primary Proxy Error", by simp [primaryAttempt, hok]⟩
  have hfall : ∀ (env : ProxyEnv) (r : Nat), 0 < r →
      (env.primaryOk = false ∨ env.primaryBody.length < 100) →
      fetchViaProxy env r = backupAttempt env := by
    intro env r hr h
    obtain ⟨e, he⟩ := hprim env h
    unfold fetchViaProxy
    rw [he]
    simp [Nat.pos_iff_ne_zero.mp hr, hr]
  refine ⟨hfall, ?_, ?_⟩
  · intro env r c hr h hbok hbc hcne
    rw [hfall env r hr h]
    simp [backupAttempt, hbok, hbc, hcne]
  · refine ⟨⟨false, "", true, some "short body"⟩, "short body", ?_, by decide⟩
    have := hfall ⟨false, "", true, some "short body"⟩ 1 (by decide) (Or.inl rfl)
    rw [this]
    rfl

/-- C10 witness: the two universally quantified parts applied to a
concrete environment whose primary body is too short and whose backup
carries a 10-character payload. -/
theorem fetchViaProxy_spec_witness :
    fetchViaProxy ⟨true, "interstitial", false, none⟩ 1 =
      backupAttempt ⟨true, "interstitial", false, none⟩ ∧
    fetchViaProxy ⟨false, "", true, some "tiny reply"⟩ 1 = .ok "tiny reply" :=
  ⟨fetchViaProxy_spec.1 ⟨true, "interstitial", false, none⟩ 1 (by decide)
      (Or.inr (by decide)),
   fetchViaProxy_spec.2.1 ⟨false, "", true, some "tiny reply"⟩ 1 "tiny reply"
      (by decide) (Or.inl rfl) rfl rfl (by decide)⟩

/-! ## Problem assembler `fetchAoPSProblem`

The fetch + `DOMParser` + `querySelector('.mw-parser-output')` step is
modelled by an oracle: `parsedContent` is the content root's child list
when the fetched page parses and has one, `none` otherwise. Everything
after that point is embedded directly. The assembler wraps the
fail-able pipeline (`fetchAoPSProblemE`, an `Except`) in the broad
`try/catch` that converts every raised error into `null`. -/

structure ScrapeEnv where
  proxy : ProxyEnv
  parsedContent : Option (List HNode)
  ai : Except String (Option String)

/-- Selector `.toc, #toc`. -/
def isTocNode : HNode → Bool
  | .text _ => false
  | .elem _ a _ => hasClass a "toc" || (getAttr a "id").getD "" = "toc"

/-- `dl` elements whose text marks a redirect / cross-reference stub. -/
def isRedirectDl : HNode → Bool
  | .text _ => false
  | .elem t _ cs =>
      t = "DL" && (containsSub (textContentList cs) "following problem is from" ||
        containsSub (textContentList cs) "redirects to this page")

mutual

def hasIdProblemNode : HNode → Bool
  | .text _ => false
  | .elem _ a cs =>
      (getAttr a "id").getD "" = "Problem" || hasIdProblemList cs

def hasIdProblemList : List HNode → Bool
  | [] => false
  | n :: ns => hasIdProblemNode n || hasIdProblemList ns

end

/-- `h.id === 'Problem' || h.textContent?.trim() === 'Problem' ||
h.querySelector('#Problem')` on `h2` elements. -/
def isProblemHeader : HNode → Bool
  | .text _ => false
  | .elem t a cs =>
      t = "H2" && ((getAttr a "id").getD "" = "Problem" ||
        strTrim (textContentList cs) = "Problem" || hasIdProblemList cs)

def findHeaderAux : List HNode → Nat → Option Nat
  | [], _ => none
  | n :: ns, i => if isProblemHeader n then some i else findHeaderAux ns (i + 1)

def placeholderSolution : HNode :=
  HNode.elem "P" [] [.text "Solution parsing failed."]

/-- The `try` block of `fetchAoPSProblem`: every failure is a raised
error (`Except.error`). -/
def fetchAoPSProblemE (env : ScrapeEnv) (url id : String)
    (level : ExamLevel) : Except String Problem :=
  match fetchViaProxy env.proxy 1 with
  | .error e => .error e
  | .ok _html =>
      match env.parsedContent with
      | none => .error "Could not find content (.mw-parser-output)"
      | some contentDiv =>
          let cleaned := removeFromList isRedirectDl (removeFromList isTocNode contentDiv)
          let rest :=
            match findHeaderAux cleaned 0 with
            | some i => cleaned.drop (i + 1)
            | none => cleaned
          let seg := segmentWalk rest .question [] []
          if strTrim (serializeList seg.1) = "" then .error "No question content found"
          else
            let questionData := cleanAndRestoreLatex seg.1
            let solutionData := cleanAndRestoreLatex
              (if serializeList seg.2 = "" then [placeholderSolution] else seg.2)
            let solHtml := serializeList solutionData.html
            .ok { id := id
                  source := .AOPS
                  originalUrl := some url
                  questionHtml := serializeList questionData.html
                  images := questionData.images
                  options := ["A", "B", "C", "D", "E"]
                  correctOption := extractCorrectOption solHtml env.ai
                  solutionHtml := solHtml
                  difficulty := 5
                  hints := []
                  solutionChat := []
                  topic := none }

/-- `fetchAoPSProblem`: the broad catch converts any raised error into an
absent result. -/
def fetchAoPSProblem (env : ScrapeEnv) (url id : String)
    (level : ExamLevel) : Option Problem :=
  (fetchAoPSProblemE env url id level).toOption

/-! ## Assembler lemmas -/

theorem parseAE_letter {cs rest : List Char} {c : Char}
    (h : parseAE cs = some (c, rest)) : isAnswerLetter c = true := by
  cases cs with
  | nil => exact Option.noConfusion h
  | cons c0 cs0 =>
      unfold parseAE at h
      dsimp only at h
      by_cases hl : isAnswerLetter c0 = true
      · rw [if_pos hl] at h
        injection h with h2
        cases h2
        exact hl
      · rw [if_neg hl] at h
        exact Option.noConfusion h

theorem tryBoxedTextbfAt_letter {cs : List Char} {c : Char}
    (h : tryBoxedTextbfAt cs = some c) : isAnswerLetter c = true := by
  simp only [tryBoxedTextbfAt, bind, Option.bind_eq_some, Option.pure_def,
    Option.some.injEq] at h
  obtain ⟨a1, h1, a2, h2, a3, h3, a4, h4, ⟨letter, rest⟩, hAE, a5, h5, a6, h6, hfin⟩ := h
  subst hfin
  exact parseAE_letter hAE

theorem tryBoxedAt_letter {cs : List Char} {c : Char}
    (h : tryBoxedAt cs = some c) : isAnswerLetter c = true := by
  simp only [tryBoxedAt, bind, Option.bind_eq_some, Option.pure_def,
    Option.some.injEq] at h
  obtain ⟨a1, h1, a2, h2, ⟨letter, rest⟩, hAE, a3, h3, hfin⟩ := h
  subst hfin
  exact parseAE_letter hAE

theorem tryAnswerIsAt_letter {cs : List Char} {c : Char}
    (h : tryAnswerIsAt cs = some c) : isAnswerLetter c = true := by
  simp only [tryAnswerIsAt, bind, Option.bind_eq_some, Option.pure_def,
    Option.some.injEq] at h
  obtain ⟨a1, h1, ⟨letter, rest⟩, hAE, hfin⟩ := h
  subst hfin
  exact parseAE_letter hAE

theorem scanFor_letter (f : List Char → Option Char)
    (hf : ∀ cs c, f cs = some c → isAnswerLetter c = true) :
    ∀ cs c, scanFor f cs = some c → isAnswerLetter c = true
  | [], c, h => hf [] c (by simpa [scanFor] using h)
  | c0 :: cs0, c, h => by
      rw [scanFor] at h
      cases hfc : f (c0 :: cs0) with
      | some r =>
          rw [hfc] at h
          injection h with h2
          subst h2
          exact hf _ _ hfc
      | none =>
          rw [hfc] at h
          exact scanFor_letter f hf cs0 c h

theorem extractCorrectOptionWithAI_shape (ai : Except String (Option String)) :
    extractCorrectOptionWithAI ai = "" ∨
      ∃ c, extractCorrectOptionWithAI ai = String.mk [c] ∧ isAnswerLetter c = true := by
  unfold extractCorrectOptionWithAI
  cases ai with
  | error e => exact Or.inl rfl
  | ok txt =>
      cases txt with
      | none => exact Or.inl rfl
      | some t =>
          dsimp only
          cases hcl : ((trimChars t.data).map upChar).filter
              (fun c => 'A' ≤ c && c ≤ 'E') with
          | nil => exact Or.inl rfl
          | cons c0 rest =>
              refine Or.inr ⟨c0, rfl, ?_⟩
              have hc0 : c0 ∈ ((trimChars t.data).map upChar).filter
                  (fun c => 'A' ≤ c && c ≤ 'E') := by
                rw [hcl]
                exact List.mem_cons_self c0 rest
              have := (List.mem_filter.mp hc0).2
              unfold isAnswerLetter
              rw [this]
              rfl

theorem extractCorrectOption_shape (html : String)
    (ai : Except String (Option String)) :
    extractCorrectOption html ai = "" ∨
      ∃ c, extractCorrectOption html ai = String.mk [c] ∧ isAnswerLetter c = true := by
  unfold extractCorrectOption
  cases h1 : scanFor tryBoxedTextbfAt html.data with
  | some c =>
      exact Or.inr ⟨c, rfl, scanFor_letter _ (fun _ _ => tryBoxedTextbfAt_letter) _ _ h1⟩
  | none =>
      cases h2 : scanFor tryBoxedAt html.data with
      | some c =>
          exact Or.inr ⟨c, rfl, scanFor_letter _ (fun _ _ => tryBoxedAt_letter) _ _ h2⟩
      | none =>
          cases h3 : scanFor tryAnswerIsAt (stripTags html).data with
          | some c =>
              exact Or.inr ⟨c, rfl, scanFor_letter _ (fun _ _ => tryAnswerIsAt_letter) _ _ h3⟩
          | none => exact extractCorrectOptionWithAI_shape ai

theorem serializeList_single_elem_ne (t : String) (a : List (String × String))
    (cs : List HNode) : serializeList [HNode.elem t a cs] ≠ "" := by
  rw [serializeList, serializeList, serializeNode]
  intro h
  have h2 := congrArg String.data h
  simp only [data_append_str] at h2
  simp at h2

theorem latexPassNode_is_elem (t : String) (a : List (String × String))
    (cs : List HNode) :
    ∃ t2 a2 cs2, latexPassNode (.elem t a cs) = .elem t2 a2 cs2 := by
  rw [latexPassNode_elem_eq]
  split
  · split
    · split
      · exact ⟨_, _, _, rfl⟩
      · exact ⟨_, _, _, rfl⟩
    · exact ⟨_, _, _, rfl⟩
  · exact ⟨_, _, _, rfl⟩

theorem imgPassNode_is_elem (t : String) (a : List (String × String))
    (cs : List HNode) (l : List String) :
    ∃ t2 a2 cs2, (imgPassNode (.elem t a cs) l).1 = .elem t2 a2 cs2 := by
  rw [imgPassNode_elem_eq]
  split
  · split
    · exact ⟨_, _, _, rfl⟩
    · exact ⟨_, _, _, rfl⟩
  · exact ⟨_, _, _, rfl⟩

theorem linkPassNode_is_elem (t : String) (a : List (String × String))
    (cs : List HNode) :
    ∃ t2 a2 cs2, linkPassNode (.elem t a cs) = .elem t2 a2 cs2 := by
  rw [linkPassNode_elem_eq]
  split
  · split
    · split
      · exact ⟨_, _, _, rfl⟩
      · exact ⟨_, _, _, rfl⟩
    · exact ⟨_, _, _, rfl⟩
  · exact ⟨_, _, _, rfl⟩

theorem clean_html_serialize_ne (x : List HNode) :
    serializeList (cleanAndRestoreLatex x).html ≠ "" := by
  rw [cleanAndRestoreLatex_eq]
  dsimp only
  obtain ⟨t1, a1, c1, h1⟩ := latexPassNode_is_elem "DIV" [] x
  rw [h1]
  obtain ⟨t2, a2, c2, h2⟩ := imgPassNode_is_elem t1 a1 c1 []
  rw [h2]
  obtain ⟨t3, a3, c3, h3⟩ := linkPassNode_is_elem t2 a2 c2
  rw [h3]
  exact serializeList_single_elem_ne t3 a3 c3

theorem fetchAoPSProblemE_ok_inv {env : ScrapeEnv} {url id : String}
    {lvl : ExamLevel} {p : Problem}
    (h : fetchAoPSProblemE env url id lvl = .ok p) :
    ∃ qa sa : List HNode,
      p = { id := id
            source := .AOPS
            originalUrl := some url
            questionHtml := serializeList (cleanAndRestoreLatex qa).html
            images := (cleanAndRestoreLatex qa).images
            options := ["A", "B", "C", "D", "E"]
            correctOption := extractCorrectOption
              (serializeList (cleanAndRestoreLatex
                (if serializeList sa = "" then [placeholderSolution] else sa)).html)
              env.ai
            solutionHtml := serializeList (cleanAndRestoreLatex
              (if serializeList sa = "" then [placeholderSolution] else sa)).html
            difficulty := 5
            hints := []
            solutionChat := []
            topic := none } := by
  unfold fetchAoPSProblemE at h
  cases hf : fetchViaProxy env.proxy 1 with
  | error e =>
      rw [hf] at h
      exact Except.noConfusion h
  | ok html =>
      rw [hf] at h
      dsimp only at h
      cases hp : env.parsedContent with
      | none =>
          rw [hp] at h
          exact Except.noConfusion h
      | some content =>
          rw [hp] at h
          dsimp only at h
          split at h
          · exact Except.noConfusion h
          · injection h with h2
            exact ⟨_, _, h2.symm⟩

/-- C1: for every environment and URL, `fetchAoPSProblem` either returns
an absent result — exactly when the pipeline raised, every raised error
being converted to `none` by the broad catch — or a fully populated
`Problem` record: identifiers and provenance are set, options are the
five letters, difficulty is the placeholder 5, hints and chat start
empty, and both HTML fields are non-empty; no partially-filled record is
ever returned. -/
theorem fetchAoPSProblem_total_or_populated (env : ScrapeEnv) (url id : String)
    (lvl : ExamLevel) :
    (∃ e, fetchAoPSProblemE env url id lvl = .error e ∧
      fetchAoPSProblem env url id lvl = none) ∨
    (∃ p, fetchAoPSProblem env url id lvl = some p ∧
      p.id = id ∧ p.source = .AOPS ∧ p.originalUrl = some url ∧
      p.options = ["A", "B", "C", "D", "E"] ∧ p.difficulty = 5 ∧
      p.hints = [] ∧ p.solutionChat = [] ∧
      p.questionHtml ≠ "" ∧ p.solutionHtml ≠ "") := by
  cases hres : fetchAoPSProblemE env url id lvl with
  | error e =>
      left
      exact ⟨e, rfl, by unfold fetchAoPSProblem; rw [hres]; rfl⟩
  | ok p =>
      right
      obtain ⟨qa, sa, hp⟩ := fetchAoPSProblemE_ok_inv hres
      refine ⟨p, by unfold fetchAoPSProblem; rw [hres]; rfl, ?_⟩
      subst hp
      exact ⟨rfl, rfl, rfl, rfl, rfl, rfl, rfl,
        clean_html_serialize_ne qa, clean_html_serialize_ne _⟩

/-- Predicate of the claimed invariant: `correctOption` is a single
uppercase letter among A–E, or the empty string. -/
def isUpperAEOrEmpty (s : String) : Bool :=
  s = "" ||
    (match s.data with
     | [c] => 'A' ≤ c && c ≤ 'E'
     | _ => false)

/-- C5 amended: every `Problem` the assembler produces has a
`correctOption` that is the empty string (unknown) or a single letter
among A–E in either case — the regex capture groups are case-insensitive
and the captured letter is used without upper-casing, while the AI
fallback upper-cases — never null (the field is total) and never
multi-character. -/
theorem fetchAoPSProblem_correctOption_shape (env : ScrapeEnv) (url id : String)
    (lvl : ExamLevel) (p : Problem)
    (h : fetchAoPSProblem env url id lvl = some p) :
    p.correctOption = "" ∨
      ∃ c, p.correctOption = String.mk [c] ∧ isAnswerLetter c = true := by
  unfold fetchAoPSProblem at h
  cases hres : fetchAoPSProblemE env url id lvl with
  | error e =>
      rw [hres] at h
      exact Option.noConfusion h
  | ok q =>
      rw [hres] at h
      injection h with h2
      subst h2
      obtain ⟨qa, sa, hp⟩ := fetchAoPSProblemE_ok_inv hres
      subst hp
      exact extractCorrectOption_shape _ env.ai

def lowercaseBoxedEnv : ScrapeEnv :=
  { proxy := ⟨true, String.mk (List.replicate 120 'x'), false, none⟩
    parsedContent := some
      [HNode.elem "H2" [("id", "Problem")] [.text "Problem"],
       HNode.elem "P" [] [.text "What is 1+1?"],
       HNode.elem "H2" [] [.text "Solution"],
       HNode.elem "P" [] [.text "We get \\boxed\x7b(b)\x7d."]]
    ai := .error "offline" }

/-- C5 counterexample: a solution marking its answer as `\boxed{(b)}`
produces `correctOption = "b"` — a lowercase letter, so not an uppercase
A–E letter and not empty: the case-insensitive regex captures the letter
as written and the code never upper-cases it. -/
theorem fetchAoPSProblem_correctOption_lowercase :
    ∃ p, fetchAoPSProblem lowercaseBoxedEnv "u" "p1" .AMC10 = some p ∧
      p.correctOption = "b" ∧ isUpperAEOrEmpty p.correctOption = false :=
  ⟨_, rfl, rfl, rfl⟩

/-- C5 witness: the amended shape theorem applied to the concrete
lowercase-boxed environment. -/
theorem fetchAoPSProblem_correctOption_shape_witness :
    ∃ p, fetchAoPSProblem lowercaseBoxedEnv "u" "p1" .AMC10 = some p ∧
      (p.correctOption = "" ∨
        ∃ c, p.correctOption = String.mk [c] ∧ isAnswerLetter c = true) :=
  ⟨_, rfl, fetchAoPSProblem_correctOption_shape lowercaseBoxedEnv "u" "p1" .AMC10 _ rfl⟩

/-! ## Batch harvester `processPrefetchQueue`

Each task's call to the Assembler is an oracle outcome: a `Problem`
(success), `null` (soft failure) or a raised error (hard failure). The
shared mutable `stopSignal.stop` flag, which other code may flip at any
await point, is modelled as the value the flag has when the loop reads it
at the boundary before task `i`. `onProgress` calls are recorded as an
event list. -/

inductive TaskOutcome where
  | success (p : Problem)
  | nullResult
  | raised (msg : String)

structure RunEvent where
  stats : PrefetchStats
  log : String
  result : Option Problem

structure RunResult where
  success : Nat
  failed : Nat
  processed : Nat
  events : List RunEvent

def idTail (s : String) : String :=
  String.mk ((s.data.reverse.takeWhile (fun c => c != '-')).reverse)

def statsAt (total s f : Nat) (t : PrefetchTask) : PrefetchStats :=
  { total := total, success := s, failed := f,
    currentYear := t.year, currentExam := t.examType }

def preLog (total i : Nat) (t : PrefetchTask) : String :=
  "Fetching [" ++ Nat.repr (i + 1) ++ "/" ++ Nat.repr total ++ "]: " ++
    t.examType ++ " #" ++ idTail t.id ++ "..."

def processAux (total : Nat) (outcomes : Nat → TaskOutcome) (stop : Nat → Bool) :
    List PrefetchTask → Nat → Nat → Nat → List RunEvent → RunResult
  | [], i, s, f, evs => ⟨s, f, i, evs⟩
  | t :: rest, i, s, f, evs =>
      if stop i then ⟨s, f, i, evs⟩
      else
        let pre : RunEvent := ⟨statsAt total s f t, preLog total i t, none⟩
        match outcomes i with
        | .success p =>
            processAux total outcomes stop rest (i + 1) (s + 1) f
              (evs ++ [pre, ⟨statsAt total (s + 1) f t, "SUCCESS: " ++ t.id, some p⟩])
        | .nullResult =>
            processAux total outcomes stop rest (i + 1) s (f + 1)
              (evs ++ [pre, ⟨statsAt total s (f + 1) t,
                "FAILED: " ++ t.id ++ " (No data returned)", none⟩])
        | .raised m =>
            processAux total outcomes stop rest (i + 1) s (f + 1)
              (evs ++ [pre, ⟨statsAt total s (f + 1) t,
                "ERROR: " ++ t.id ++ " - " ++ m, none⟩])

def processPrefetchQueue (queue : List PrefetchTask)
    (outcomes : Nat → TaskOutcome) (stop : Nat → Bool) : RunResult :=
  processAux queue.length outcomes stop queue 0 0 0 []

def isSuccessOutcome : TaskOutcome → Bool
  | .success _ => true
  | _ => false

def countSuccRange (outcomes : Nat → TaskOutcome) (i n : Nat) : Nat :=
  ((List.range' i n).filter (fun j => isSuccessOutcome (outcomes j))).length

/-- Event trace of a run that is never stopped. -/
def runTrace (total : Nat) (outcomes : Nat → TaskOutcome) :
    List PrefetchTask → Nat → Nat → Nat → List RunEvent
  | [], _, _, _ => []
  | t :: rest, i, s, f =>
      let pre : RunEvent := ⟨statsAt total s f t, preLog total i t, none⟩
      match outcomes i with
      | .success p =>
          pre :: ⟨statsAt total (s + 1) f t, "SUCCESS: " ++ t.id, some p⟩ ::
            runTrace total outcomes rest (i + 1) (s + 1) f
      | .nullResult =>
          pre :: ⟨statsAt total s (f + 1) t,
              "FAILED: " ++ t.id ++ " (No data returned)", none⟩ ::
            runTrace total outcomes rest (i + 1) s (f + 1)
      | .raised m =>
          pre :: ⟨statsAt total s (f + 1) t,
              "ERROR: " ++ t.id ++ " - " ++ m, none⟩ ::
            runTrace total outcomes rest (i + 1) s (f + 1)

theorem countSuccRange_zero (outcomes : Nat → TaskOutcome) (i : Nat) :
    countSuccRange outcomes i 0 = 0 := rfl

theorem countSuccRange_le (outcomes : Nat → TaskOutcome) (i n : Nat) :
    countSuccRange outcomes i n ≤ n := by
  unfold countSuccRange
  calc ((List.range' i n).filter _).length ≤ (List.range' i n).length :=
        List.length_filter_le _ _
    _ = n := List.length_range' ..

theorem countSuccRange_succ (outcomes : Nat → TaskOutcome) (i n : Nat) :
    countSuccRange outcomes i (n + 1) =
      (if isSuccessOutcome (outcomes i) then 1 else 0) +
        countSuccRange outcomes (i + 1) n := by
  unfold countSuccRange
  rw [List.range'_succ, List.filter_cons]
  by_cases h : isSuccessOutcome (outcomes i) = true
  · rw [if_pos h, if_pos h]
    simp only [List.length_cons]
    omega
  · rw [if_neg h, if_neg h]
    omega

theorem processAux_no_stop (total : Nat) (outcomes : Nat → TaskOutcome) :
    ∀ (queue : List PrefetchTask) (i s f : Nat) (evs : List RunEvent),
      processAux total outcomes (fun _ => false) queue i s f evs =
        ⟨s + countSuccRange outcomes i queue.length,
         f + (queue.length - countSuccRange outcomes i queue.length),
         i + queue.length,
         evs ++ runTrace total outcomes queue i s f⟩
  | [], i, s, f, evs => by
      simp [processAux, runTrace, countSuccRange_zero]
  | t :: rest, i, s, f, evs => by
      rw [processAux]
      dsimp only
      rw [if_neg (by simp)]
      have hle := countSuccRange_le outcomes (i + 1) rest.length
      cases hout : outcomes i with
      | success p =>
          dsimp only
          rw [processAux_no_stop total outcomes rest (i + 1) (s + 1) f _]
          conv_rhs => rw [runTrace.eq_def]
          dsimp only
          rw [hout]
          dsimp only
          have hcnt : countSuccRange outcomes i (t :: rest).length =
              1 + countSuccRange outcomes (i + 1) rest.length := by
            rw [List.length_cons, countSuccRange_succ, hout]
            rfl
          rw [RunResult.mk.injEq]
          refine ⟨by rw [hcnt]; omega, by rw [hcnt, List.length_cons]; omega,
            by rw [List.length_cons]; omega, by simp⟩
      | nullResult =>
          dsimp only
          rw [processAux_no_stop total outcomes rest (i + 1) s (f + 1) _]
          conv_rhs => rw [runTrace.eq_def]
          dsimp only
          rw [hout]
          dsimp only
          have hcnt : countSuccRange outcomes i (t :: rest).length =
              countSuccRange outcomes (i + 1) rest.length := by
            rw [List.length_cons, countSuccRange_succ, hout]
            simp [isSuccessOutcome]
          rw [RunResult.mk.injEq]
          refine ⟨by rw [hcnt], by rw [hcnt, List.length_cons]; omega,
            by rw [List.length_cons]; omega, by simp⟩
      | raised m =>
          dsimp only
          rw [processAux_no_stop total outcomes rest (i + 1) s (f + 1) _]
          conv_rhs => rw [runTrace.eq_def]
          dsimp only
          rw [hout]
          dsimp only
          have hcnt : countSuccRange outcomes i (t :: rest).length =
              countSuccRange outcomes (i + 1) rest.length := by
            rw [List.length_cons, countSuccRange_succ, hout]
            simp [isSuccessOutcome]
          rw [RunResult.mk.injEq]
          refine ⟨by rw [hcnt], by rw [hcnt, List.length_cons]; omega,
            by rw [List.length_cons]; omega, by simp⟩

theorem runTrace_length (total : Nat) (outcomes : Nat → TaskOutcome) :
    ∀ (queue : List PrefetchTask) (i s f : Nat),
      (runTrace total outcomes queue i s f).length = 2 * queue.length
  | [], _, _, _ => rfl
  | t :: rest, i, s, f => by
      rw [runTrace.eq_def]
      dsimp only
      cases hout : outcomes i <;>
        simp [runTrace_length total outcomes rest, List.length_cons] <;> omega

theorem runTrace_pairs (total : Nat) (outcomes : Nat → TaskOutcome) :
    ∀ (queue : List PrefetchTask) (i s f k : Nat), k < queue.length →
      ∃ e1 e2, (runTrace total outcomes queue i s f).get? (2 * k) = some e1 ∧
        (runTrace total outcomes queue i s f).get? (2 * k + 1) = some e2 ∧
        e1.result = none ∧
        e1.stats.success + e1.stats.failed = s + f + k ∧
        e2.stats.success + e2.stats.failed = s + f + k + 1
  | [], _, _, _, k, hk => absurd hk (by simp)
  | t :: rest, i, s, f, k, hk => by
      rw [runTrace.eq_def]
      dsimp only
      cases hout : outcomes i with
      | success p =>
          cases k with
          | zero =>
              refine ⟨_, _, rfl, rfl, rfl, ?_, ?_⟩
              · simp [statsAt]
              · simp [statsAt]
                omega
          | succ k2 =>
              have hk2 : k2 < rest.length := by
                simp only [List.length_cons] at hk
                omega
              obtain ⟨e1, e2, h1, h2, h3, h4, h5⟩ :=
                runTrace_pairs total outcomes rest (i + 1) (s + 1) f k2 hk2
              refine ⟨e1, e2, ?_, ?_, h3, by omega, by omega⟩
              · rw [show 2 * (k2 + 1) = 2 * k2 + 1 + 1 by omega,
                  List.get?_cons_succ, List.get?_cons_succ]
                exact h1
              · rw [show 2 * (k2 + 1) + 1 = (2 * k2 + 1) + 1 + 1 by omega,
                  List.get?_cons_succ, List.get?_cons_succ]
                exact h2
      | nullResult =>
          cases k with
          | zero =>
              refine ⟨_, _, rfl, rfl, rfl, ?_, ?_⟩
              · simp [statsAt]
              · simp [statsAt]
                omega
          | succ k2 =>
              have hk2 : k2 < rest.length := by
                simp only [List.length_cons] at hk
                omega
              obtain ⟨e1, e2, h1, h2, h3, h4, h5⟩ :=
                runTrace_pairs total outcomes rest (i + 1) s (f + 1) k2 hk2
              refine ⟨e1, e2, ?_, ?_, h3, by omega, by omega⟩
              · rw [show 2 * (k2 + 1) = 2 * k2 + 1 + 1 by omega,
                  List.get?_cons_succ, List.get?_cons_succ]
                exact h1
              · rw [show 2 * (k2 + 1) + 1 = (2 * k2 + 1) + 1 + 1 by omega,
                  List.get?_cons_succ, List.get?_cons_succ]
                exact h2
      | raised m =>
          cases k with
          | zero =>
              refine ⟨_, _, rfl, rfl, rfl, ?_, ?_⟩
              · simp [statsAt]
              · simp [statsAt]
                omega
          | succ k2 =>
              have hk2 : k2 < rest.length := by
                simp only [List.length_cons] at hk
                omega
              obtain ⟨e1, e2, h1, h2, h3, h4, h5⟩ :=
                runTrace_pairs total outcomes rest (i + 1) s (f + 1) k2 hk2
              refine ⟨e1, e2, ?_, ?_, h3, by omega, by omega⟩
              · rw [show 2 * (k2 + 1) = 2 * k2 + 1 + 1 by omega,
                  List.get?_cons_succ, List.get?_cons_succ]
                exact h1
              · rw [show 2 * (k2 + 1) + 1 = (2 * k2 + 1) + 1 + 1 by omega,
                  List.get?_cons_succ, List.get?_cons_succ]
                exact h2

/-- C7: in a run that is never stopped, every task is classified into
exactly one of success, soft failure, or hard failure: the success
counter counts exactly the success outcomes, success and failed add up
to the number of tasks processed, which is the whole queue (a raised
error never aborts the run), and `onProgress` is invoked at least twice
per task — for each task k, events 2k and 2k+1 exist, event 2k is the
pre-attempt report (no problem attached, counters summing to k) and
event 2k+1 the post-attempt report (counters summing to k+1). -/
theorem processPrefetchQueue_spec (queue : List PrefetchTask)
    (outcomes : Nat → TaskOutcome) :
    (processPrefetchQueue queue outcomes (fun _ => false)).success =
      countSuccRange outcomes 0 queue.length ∧
    (processPrefetchQueue queue outcomes (fun _ => false)).success +
      (processPrefetchQueue queue outcomes (fun _ => false)).failed = queue.length ∧
    (processPrefetchQueue queue outcomes (fun _ => false)).processed = queue.length ∧
    (processPrefetchQueue queue outcomes (fun _ => false)).events.length =
      2 * queue.length ∧
    (∀ k, k < queue.length → ∃ e1 e2,
      (processPrefetchQueue queue outcomes (fun _ => false)).events.get? (2 * k) =
        some e1 ∧
      (processPrefetchQueue queue outcomes (fun _ => false)).events.get? (2 * k + 1) =
        some e2 ∧
      e1.result = none ∧ e1.stats.success + e1.stats.failed = k ∧
      e2.stats.success + e2.stats.failed = k + 1) := by
  have hle := countSuccRange_le outcomes 0 queue.length
  unfold processPrefetchQueue
  rw [processAux_no_stop queue.length outcomes queue 0 0 0 []]
  dsimp only
  rw [List.nil_append]
  refine ⟨by omega, by omega, by omega, runTrace_length queue.length outcomes queue 0 0 0, ?_⟩
  intro k hk
  obtain ⟨e1, e2, h1, h2, h3, h4, h5⟩ :=
    runTrace_pairs queue.length outcomes queue 0 0 0 k hk
  exact ⟨e1, e2, h1, h2, h3, by omega, by omega⟩

def dummyProblem : Problem :=
  { id := "d", source := .AOPS, originalUrl := none, questionHtml := "<p>q</p>",
    images := [], options := ["A", "B", "C", "D", "E"], correctOption := "A",
    solutionHtml := "<p>s</p>", difficulty := 5, hints := [], solutionChat := [],
    topic := none }

def fiveTasks : List PrefetchTask :=
  addTask 2025 .AMC8 "AMC_8" "AMC 8" "amc8" 5

def fiveOutcomes : Nat → TaskOutcome :=
  fun i => if i = 2 then .raised "network down" else .success dummyProblem

/-- C7 witness: a 5-task queue where only task 3 (index 2) raises:
success = 4, failed = 1, and the progress events at indices 4 and 5 are
the pre- and post-attempt reports of the raising task. -/
theorem processPrefetchQueue_spec_witness :
    (processPrefetchQueue fiveTasks fiveOutcomes (fun _ => false)).success = 4 ∧
    (processPrefetchQueue fiveTasks fiveOutcomes (fun _ => false)).failed = 1 ∧
    (processPrefetchQueue fiveTasks fiveOutcomes (fun _ => false)).events.length = 10 ∧
    (∃ e1 e2,
      (processPrefetchQueue fiveTasks fiveOutcomes (fun _ => false)).events.get? 4 =
        some e1 ∧
      (processPrefetchQueue fiveTasks fiveOutcomes (fun _ => false)).events.get? 5 =
        some e2 ∧ e1.result = none) := by
  obtain ⟨hsucc, hsum, hproc, hlen, hpairs⟩ :=
    processPrefetchQueue_spec fiveTasks fiveOutcomes
  have hcnt : countSuccRange fiveOutcomes 0 fiveTasks.length = 4 := by decide
  have hlen5 : fiveTasks.length = 5 := by decide
  rw [hcnt] at hsucc
  rw [hlen5] at hsum hlen
  obtain ⟨e1, e2, h1, h2, h3, _, _⟩ := hpairs 2 (by rw [hlen5]; omega)
  exact ⟨hsucc, by omega, by rw [hlen], ⟨e1, e2, h1, h2, h3⟩⟩

theorem processAux_stop (total : Nat) (outcomes : Nat → TaskOutcome)
    (stop : Nat → Bool) (k : Nat) (hstop : ∀ j, stop j = true ↔ k ≤ j) :
    ∀ (queue : List PrefetchTask) (i s f : Nat) (evs : List RunEvent),
      i ≤ k → k ≤ i + queue.length →
      (processAux total outcomes stop queue i s f evs).processed = k ∧
      (processAux total outcomes stop queue i s f evs).events.length =
        evs.length + 2 * (k - i)
  | [], i, s, f, evs, h1, h2 => by
      simp only [processAux, List.length_nil] at h2 ⊢
      constructor
      · omega
      · omega
  | t :: rest, i, s, f, evs, h1, h2 => by
      rw [processAux]
      dsimp only
      by_cases hs : stop i = true
      · rw [if_pos hs]
        have hki : k ≤ i := (hstop i).mp hs
        constructor
        · dsimp only
          omega
        · dsimp only
          omega
      · rw [if_neg hs]
        have hik : i < k := by
          rcases Nat.lt_or_ge i k with h | h
          · exact h
          · exact absurd (hs ((hstop i).mpr h)) (by simp)
        have h2' : k ≤ i + 1 + rest.length := by
          simp only [List.length_cons] at h2
          omega
        cases hout : outcomes i with
        | success p =>
            dsimp only
            obtain ⟨ha, hb⟩ := processAux_stop total outcomes stop k hstop rest
              (i + 1) (s + 1) f _ (by omega) h2'
            refine ⟨ha, ?_⟩
            rw [hb]
            simp only [List.length_append, List.length_cons, List.length_nil]
            omega
        | nullResult =>
            dsimp only
            obtain ⟨ha, hb⟩ := processAux_stop total outcomes stop k hstop rest
              (i + 1) s (f + 1) _ (by omega) h2'
            refine ⟨ha, ?_⟩
            rw [hb]
            simp only [List.length_append, List.length_cons, List.length_nil]
            omega
        | raised m =>
            dsimp only
            obtain ⟨ha, hb⟩ := processAux_stop total outcomes stop k hstop rest
              (i + 1) s (f + 1) _ (by omega) h2'
            refine ⟨ha, ?_⟩
            rw [hb]
            simp only [List.length_append, List.length_cons, List.length_nil]
            omega

/-- C8: if the cooperative stop flag reads false at the boundaries before
tasks `0..k-1` and true from the boundary after the k-th task on
(`stop j = true ↔ k ≤ j`), the harvester processes exactly `k` of the
`n` tasks: the flag is checked only before each task, and once it is
observed set no further task is begun — no further progress events are
emitted either. -/
theorem processPrefetchQueue_stop_spec (queue : List PrefetchTask)
    (outcomes : Nat → TaskOutcome) (stop : Nat → Bool) (k : Nat)
    (hk : k < queue.length) (hstop : ∀ j, stop j = true ↔ k ≤ j) :
    (processPrefetchQueue queue outcomes stop).processed = k ∧
    (processPrefetchQueue queue outcomes stop).events.length = 2 * k := by
  obtain ⟨ha, hb⟩ := processAux_stop queue.length outcomes stop k hstop queue
    0 0 0 [] (by omega) (by omega)
  unfold processPrefetchQueue
  refine ⟨ha, ?_⟩
  rw [hb]
  simp

/-- C8 witness: stopping after task 2 of the 5-task queue (the flag reads
true from boundary 2 on) halts the run with exactly 2 tasks processed
and 4 progress events. -/
theorem processPrefetchQueue_stop_spec_witness :
    (processPrefetchQueue fiveTasks fiveOutcomes (fun j => decide (2 ≤ j))).processed = 2 ∧
    (processPrefetchQueue fiveTasks fiveOutcomes (fun j => decide (2 ≤ j))).events.length = 4 :=
  processPrefetchQueue_stop_spec fiveTasks fiveOutcomes (fun j => decide (2 ≤ j)) 2
    (by decide) (fun j => by simp)

/-! ## Lenient JSON reader `parseJsonFromResponse`

`JSON.parse` is modelled by a fuel-indexed recursive-descent parser over
the JSON grammar (whitespace, strings with escapes, numbers kept as their
source text, arrays, objects); parsing succeeds only when the whole
string is consumed up to trailing whitespace, as `JSON.parse` requires.
The markdown-fence cleanup regexes are modelled by fuel-indexed scanners
(fuel bounds the number of steps; one unit per visited character is
enough, and the published wrappers always pass an adequate bound). -/

def jsonWs (c : Char) : Bool :=
  c = ' ' || c = '\t' || c = '\n' || c = '\r'

inductive Json where
  | null
  | bool (b : Bool)
  | num (src : String)
  | str (s : String)
  | arr (elems : List Json)
  | obj (fields : List (String × Json))

def hexVal (c : Char) : Option Nat :=
  if '0' ≤ c && c ≤ '9' then some (c.toNat - 48)
  else if 'a' ≤ c && c ≤ 'f' then some (c.toNat - 87)
  else if 'A' ≤ c && c ≤ 'F' then some (c.toNat - 55)
  else none

def parseStringBody : Nat → List Char → Option (List Char × List Char)
  | 0, _ => none
  | _ + 1, [] => none
  | fuel + 1, c :: cs =>
      if c = '"' then some ([], cs)
      else if c = '\\' then
        match cs with
        | [] => none
        | e :: cs2 =>
            if e = 'u' then
              match cs2 with
              | h1 :: h2 :: h3 :: h4 :: cs3 =>
                  match hexVal h1, hexVal h2, hexVal h3, hexVal h4 with
                  | some v1, some v2, some v3, some v4 =>
                      match parseStringBody fuel cs3 with
                      | some (chars, rest) =>
                          some (Char.ofNat (((v1 * 16 + v2) * 16 + v3) * 16 + v4) :: chars,
                            rest)
                      | none => none
                  | _, _, _, _ => none
              | _ => none
            else
              let decoded : Option Char :=
                if e = '"' then some '"'
                else if e = '\\' then some '\\'
                else if e = '/' then some '/'
                else if e = 'b' then some '\x08'
                else if e = 'f' then some '\x0c'
                else if e = 'n' then some '\n'
                else if e = 'r' then some '\r'
                else if e = 't' then some '\t'
                else none
              match decoded with
              | some d =>
                  match parseStringBody fuel cs2 with
                  | some (chars, rest) => some (d :: chars, rest)
                  | none => none
              | none => none
      else if c.toNat < 32 then none
      else
        match parseStringBody fuel cs with
        | some (chars, rest) => some (c :: chars, rest)
        | none => none

def isDigit (c : Char) : Bool := '0' ≤ c && c ≤ '9'

def takeDigits1 : List Char → Option (List Char × List Char)
  | [] => none
  | c :: cs =>
      if isDigit c then
        match cs.span isDigit with
        | (ds, rest) => some (c :: ds, rest)
      else none

/-- JSON number grammar: `-? (0 | [1-9][0-9]*) (. [0-9]+)? ([eE][+-]?[0-9]+)?`,
returning the source characters. -/
def parseNumberBody (cs0 : List Char) : Option (List Char × List Char) := do
  let (sign, cs1) :=
    match cs0 with
    | '-' :: r => (['-'], r)
    | _ => ([], cs0)
  let (intPart, cs2) ←
    match cs1 with
    | '0' :: r => some (['0'], r)
    | c :: _ =>
        if isDigit c && c ≠ '0' then takeDigits1 cs1 else none
    | [] => none
  let (fracPart, cs3) ←
    match cs2 with
    | '.' :: r =>
        match takeDigits1 r with
        | some (ds, rest) => some ('.' :: ds, rest)
        | none => none
    | _ => some ([], cs2)
  let (expPart, cs4) ←
    match cs3 with
    | c :: r =>
        if c = 'e' || c = 'E' then
          match r with
          | s :: r2 =>
              if s = '+' || s = '-' then
                match takeDigits1 r2 with
                | some (ds, rest) => some (c :: s :: ds, rest)
                | none => none
              else
                match takeDigits1 r with
                | some (ds, rest) => some (c :: ds, rest)
                | none => none
          | [] => none
        else some ([], cs3)
    | [] => some ([], cs3)
  return (sign ++ intPart ++ fracPart ++ expPart, cs4)

mutual

def parseValue : Nat → List Char → Option (Json × List Char)
  | 0, _ => none
  | fuel + 1, cs0 =>
      match cs0.dropWhile jsonWs with
      | [] => none
      | '{' :: cs1 =>
          match cs1.dropWhile jsonWs with
          | '}' :: cs2 => some (.obj [], cs2)
          | _ => 
              match parseMembers fuel cs1 with
              | some (ms, rest) => some (.obj ms, rest)
              | none => none
      | '[' :: cs1 =>
          match cs1.dropWhile jsonWs with
          | ']' :: cs2 => some (.arr [], cs2)
          | _ =>
              match parseElems fuel cs1 with
              | some (es, rest) => some (.arr es, rest)
              | none => none
      | '"' :: cs1 =>
          match parseStringBody (fuel + 1) cs1 with
          | some (chars, rest) => some (.str (String.mk chars), rest)
          | none => none
      | 't' :: 'r' :: 'u' :: 'e' :: rest => some (.bool true, rest)
      | 'f' :: 'a' :: 'l' :: 's' :: 'e' :: rest => some (.bool false, rest)
      | 'n' :: 'u' :: 'l' :: 'l' :: rest => some (.null, rest)
      | other =>
          match parseNumberBody other with
          | some (src, rest) => some (.num (String.mk src), rest)
          | none => none

def parseMembers : Nat → List Char → Option (List (String × Json) × List Char)
  | 0, _ => none
  | fuel + 1, cs0 =>
      match cs0.dropWhile jsonWs with
      | '"' :: cs1 =>
          match parseStringBody (fuel + 1) cs1 with
          | some (key, cs2) =>
              match cs2.dropWhile jsonWs with
              | ':' :: cs3 =>
                  match parseValue fuel cs3 with
                  | some (v, cs4) =>
                      match cs4.dropWhile jsonWs with
                      | ',' :: cs5 =>
                          match parseMembers fuel cs5 with
                          | some (ms, cs6) => some ((String.mk key, v) :: ms, cs6)
                          | none => none
                      | '}' :: cs5 => some ([(String.mk key, v)], cs5)
                      | _ => none
                  | none => none
              | _ => none
          | none => none
      | _ => none

def parseElems : Nat → List Char → Option (List Json × List Char)
  | 0, _ => none
  | fuel + 1, cs0 =>
      match parseValue fuel cs0 with
      | some (v, cs1) =>
          match cs1.dropWhile jsonWs with
          | ',' :: cs2 =>
              match parseElems fuel cs2 with
              | some (es, cs3) => some (v :: es, cs3)
              | none => none
          | ']' :: cs2 => some ([v], cs2)
          | _ => none
      | none => none

end

/-- `JSON.parse`: parse one value and require only whitespace to remain. -/
def parseJson (s : String) : Option Json :=
  match parseValue (s.data.length + 2) s.data with
  | some (v, rest) => if (rest.dropWhile jsonWs).isEmpty then some v else none
  | none => none

/-- Scanner for `.replace(/```json\s*/gi, "")`: on each occurrence of a
case-insensitive triple-backtick-json marker, delete it and then skip
following whitespace (the greedy `\s*`), continuing as the regex engine
does; all other characters are copied. -/
def sfj : Nat → Bool → List Char → List Char
  | 0, _, cs => cs
  | _ + 1, _, [] => []
  | fuel + 1, skipping, c :: cs =>
      if skipping && jsWs c then sfj fuel true cs
      else if c = '`' && startsWithCI cs ("``json".data) then
        sfj fuel true (cs.drop 6)
      else c :: sfj fuel false cs

/-- `.replace(/```\s*$/g, "")`: if the string ends in a triple backtick
followed by only whitespace, remove that suffix. -/
def stripFenceEnd (cs : List Char) : List Char :=
  let r := cs.reverse.dropWhile jsWs
  if startsWithL r ("```".data) then (r.drop 3).reverse else cs

/-- `.replace(/```/g, "")`: delete every remaining triple backtick,
scanning left to right over non-overlapping matches. -/
def stripTicks : Nat → List Char → List Char
  | 0, cs => cs
  | _ + 1, [] => []
  | fuel + 1, c :: cs =>
      if c = '`' && startsWithL cs ("``".data) then stripTicks fuel (cs.drop 2)
      else c :: stripTicks fuel cs

/-- Step 1 of `parseJsonFromResponse`: strip markdown fences and trim. -/
def cleanResponseText (t : String) : List Char :=
  let s1 := sfj (t.data.length + 1) false t.data
  let s2 := stripFenceEnd s1
  let s3 := stripTicks (s2.length + 1) s2
  trimChars s3

/-- `String.prototype.indexOf` for a single character, as an `Option`. -/
def idxOfAux (ch : Char) : List Char → Nat → Option Nat
  | [], _ => none
  | c :: cs, i => if c = ch then some i else idxOfAux ch cs (i + 1)

/-- `String.prototype.lastIndexOf` for a single character. -/
def lastIdxOf (ch : Char) (cs : List Char) : Option Nat :=
  match idxOfAux ch cs.reverse 0 with
  | some i => some (cs.length - 1 - i)
  | none => none

/-- `clean.substring(a, b)`: the characters with indices in `[a, b)`. -/
def substringSlice (cs : List Char) (a b : Nat) : List Char :=
  (cs.drop a).take (b - a)

/-- Step 2 of `parseJsonFromResponse`: the object-boundary branch,
`clean.substring(first, last + 1)` when both a `\x7b` and a `\x7d` occur. -/
def sliceObj (clean : List Char) : List Char :=
  match idxOfAux '{' clean 0, lastIdxOf '}' clean with
  | some fi, some la => substringSlice clean fi (la + 1)
  | _, _ => clean

/-- Step 2 of `parseJsonFromResponse`: array boundaries take precedence
when a `[` occurs before any `\x7b`; otherwise object boundaries. -/
def extractJsonSlice (clean : List Char) : List Char :=
  match idxOfAux '[' clean 0 with
  | some fa =>
      if (match idxOfAux '{' clean 0 with
          | none => true
          | some fi => decide (fa < fi)) then
        match lastIdxOf ']' clean with
        | some la => substringSlice clean fa (la + 1)
        | none => clean
      else sliceObj clean
  | none => sliceObj clean

/-- `.replace(/\\/g, "\\\\")`: double every backslash. -/
def doubleBack : List Char → List Char
  | [] => []
  | c :: cs =>
      if c = '\\' then '\\' :: '\\' :: doubleBack cs
      else c :: doubleBack cs

/-- `.replace(/\\\\\\/g, "\\\\")`: collapse each run of three backslashes
to two, left to right over non-overlapping matches. -/
def tripleTo2 : Nat → List Char → List Char
  | 0, cs => cs
  | _ + 1, [] => []
  | fuel + 1, c :: cs =>
      if c = '\\' && startsWithL cs ("\\\\".data) then
        '\\' :: '\\' :: tripleTo2 fuel (cs.drop 2)
      else c :: tripleTo2 fuel cs

/-- Step 4 heuristic: double all backslashes, then collapse triples. -/
def backslashFix (cs : List Char) : List Char :=
  tripleTo2 ((doubleBack cs).length + 1) (doubleBack cs)

/-- `parseJsonFromResponse` (geminiService.ts lines 34-66): `undefined` or
empty text gives `null`; otherwise strip fences, trim, slice to JSON
boundaries, `JSON.parse`, and on failure retry once after the backslash
repair, returning `null` if that also fails. -/
def parseJsonFromResponse (text : Option String) : Option Json :=
  match text with
  | none => none
  | some t =>
      if t = "" then none
      else
        let sliced := extractJsonSlice (cleanResponseText t)
        match parseJson (String.mk sliced) with
        | some v => some v
        | none =>
            match parseJson (String.mk (backslashFix sliced)) with
            | some v => some v
            | none => none
theorem sfj_nil (fuel : Nat) (b : Bool) : sfj fuel b [] = [] := by
  cases fuel <;> rfl

theorem sfj_cons_ws (fuel : Nat) (c : Char) (cs : List Char) (h : jsWs c = true) :
    sfj (fuel + 1) true (c :: cs) = sfj fuel true cs := by
  simp [sfj, h]

theorem sfj_cons_ne (fuel : Nat) (skipping : Bool) (c : Char) (cs : List Char)
    (hw : skipping = false ∨ jsWs c = false) (hc : c ≠ '`') :
    sfj (fuel + 1) skipping (c :: cs) = c :: sfj fuel false cs := by
  have h1 : (skipping && jsWs c) = false := by
    rcases hw with h | h <;> simp [h]
  simp [sfj, h1, hc]

theorem sfj_cons_tick (fuel : Nat) (cs : List Char)
    (h : startsWithCI cs ("``json".data) = false) :
    sfj (fuel + 1) false ('`' :: cs) = '`' :: sfj fuel false cs := by
  simp [sfj, h]

theorem startsWithCI_append_self (p b : List Char) : startsWithCI (p ++ b) p = true := by
  induction p with
  | nil => cases b <;> rfl
  | cons c p ih => simp [startsWithCI, ih]

theorem sfj_fence (fuel : Nat) (b : List Char) :
    sfj (fuel + 1) false ('`' :: '`' :: '`' :: 'j' :: 's' :: 'o' :: 'n' :: b) =
      sfj fuel true b := by
  have h : startsWithCI ('`' :: '`' :: 'j' :: 's' :: 'o' :: 'n' :: b) ("``json".data) = true := by
    have : "``json".data = ['`', '`', 'j', 's', 'o', 'n'] := rfl
    rw [this]
    exact startsWithCI_append_self ['`', '`', 'j', 's', 'o', 'n'] b
  simp [sfj, h]

theorem sfj_copy (a : List Char) (b : List Char) (fuel : Nat)
    (h : ∀ c ∈ a, c ≠ '`') :
    sfj (a.length + fuel) false (a ++ b) = a ++ sfj fuel false b := by
  induction a with
  | nil => simp
  | cons c a ih =>
      have hfu : (c :: a).length + fuel = (a.length + fuel) + 1 := by
        simp [List.length_cons]; omega
      rw [hfu, List.cons_append,
          sfj_cons_ne _ _ _ _ (Or.inl rfl) (h c (List.mem_cons_self c a)),
          ih (fun c hc => h c (List.mem_cons_of_mem _ hc))]
      rfl

theorem sfj_ws_skip (w b : List Char) (fuel : Nat)
    (h : ∀ c ∈ w, jsWs c = true) :
    sfj (w.length + fuel) true (w ++ b) = sfj fuel true b := by
  induction w with
  | nil => simp
  | cons c w ih =>
      have hfu : (c :: w).length + fuel = (w.length + fuel) + 1 := by
        simp [List.length_cons]; omega
      rw [hfu, List.cons_append,
          sfj_cons_ws _ _ _ (h c (List.mem_cons_self c w)),
          ih (fun c hc => h c (List.mem_cons_of_mem _ hc))]

theorem stripTicks_nil (fuel : Nat) : stripTicks fuel [] = [] := by
  cases fuel <;> rfl

theorem stripTicks_cons_ne (fuel : Nat) (c : Char) (cs : List Char) (hc : c ≠ '`') :
    stripTicks (fuel + 1) (c :: cs) = c :: stripTicks fuel cs := by
  simp [stripTicks, hc]

theorem stripTicks_fence (fuel : Nat) (b : List Char) :
    stripTicks (fuel + 1) ('`' :: '`' :: '`' :: b) = stripTicks fuel b := by
  have h : startsWithL ('`' :: '`' :: b) ("``".data) = true := by
    simp [startsWithL]
  simp [stripTicks, h]

theorem stripTicks_copy (a b : List Char) (fuel : Nat)
    (h : ∀ c ∈ a, c ≠ '`') :
    stripTicks (a.length + fuel) (a ++ b) = a ++ stripTicks fuel b := by
  induction a with
  | nil => simp
  | cons c a ih =>
      have hfu : (c :: a).length + fuel = (a.length + fuel) + 1 := by
        simp [List.length_cons]; omega
      rw [hfu, List.cons_append,
          stripTicks_cons_ne _ _ _ (h c (List.mem_cons_self c a)),
          ih (fun c hc => h c (List.mem_cons_of_mem _ hc))]
      rfl

theorem stripFenceEnd_id (l : List Char) (c : Char)
    (hc : l.getLast? = some c) (hw : jsWs c = false) (hb : c ≠ '`') :
    stripFenceEnd l = l := by
  unfold stripFenceEnd
  have hrev : l.reverse.head? = some c := by
    rw [List.head?_reverse]; exact hc
  cases hlr : l.reverse with
  | nil => rw [hlr] at hrev; exact absurd hrev (by simp)
  | cons d rest =>
      rw [hlr] at hrev
      rw [List.head?_cons] at hrev
      have hd : d = c := by injection hrev
      subst hd
      dsimp only
      rw [List.dropWhile_cons]
      rw [if_neg (show ¬(jsWs d = true) by simp [hw])]
      have hsw : startsWithL (d :: rest) ("```".data) = false := by
        simp [startsWithL, hb]
      rw [hsw]
      simp

theorem trimChars_id (l : List Char) (a b : Char)
    (ha : l.head? = some a) (hwa : jsWs a = false)
    (hb : l.getLast? = some b) (hwb : jsWs b = false) :
    trimChars l = l := by
  unfold trimChars
  cases l with
  | nil => simp
  | cons x xs =>
      rw [List.head?_cons] at ha
      have hx : x = a := by injection ha
      rw [List.dropWhile_cons, if_neg (by simp [hx, hwa])]
      have hrev : (x :: xs).reverse.head? = some b := by
        rw [List.head?_reverse]; exact hb
      cases hr : (x :: xs).reverse with
      | nil => rw [hr] at hrev; exact absurd hrev (by simp)
      | cons y ys =>
          rw [hr] at hrev
          rw [List.head?_cons] at hrev
          have hy : y = b := by injection hrev
          rw [List.dropWhile_cons, if_neg (by simp [hy, hwb]), ← hr]
          simp

theorem idxOfAux_head (ch : Char) (rest : List Char) (i : Nat) :
    idxOfAux ch (ch :: rest) i = some i := by
  simp [idxOfAux]

theorem idxOfAux_append_not (a : List Char) (ch : Char) (rest : List Char) :
    ∀ i : Nat, (∀ c ∈ a, c ≠ ch) →
    idxOfAux ch (a ++ ch :: rest) i = some (i + a.length) := by
  induction a with
  | nil => intro i _; simp [idxOfAux]
  | cons c a ih =>
      intro i h
      have hc : c ≠ ch := h c (List.mem_cons_self c a)
      rw [List.cons_append]
      show (if c = ch then some i else idxOfAux ch (a ++ ch :: rest) (i + 1)) = _
      rw [if_neg hc, ih (i + 1) (fun c hc => h c (List.mem_cons_of_mem _ hc))]
      simp [List.length_cons]; omega

theorem sfj_copy_all (a : List Char) (fuel : Nat) (h : ∀ c ∈ a, c ≠ '`') :
    sfj (a.length + fuel) false a = a := by
  have := sfj_copy a [] fuel h
  rw [List.append_nil] at this
  rw [this, sfj_nil, List.append_nil]

theorem stripTicks_all (a : List Char) (fuel : Nat) (h : ∀ c ∈ a, c ≠ '`') :
    stripTicks (a.length + fuel) a = a := by
  have := stripTicks_copy a [] fuel h
  rw [List.append_nil] at this
  rw [this, stripTicks_nil, List.append_nil]

theorem getLast?_append_some (l₂ l₁ : List Char) (c : Char) (h : l₂.getLast? = some c) :
    (l₁ ++ l₂).getLast? = some c := by
  rw [List.getLast?_append, h]; rfl

/-- The triple-backtick-json scanner removes exactly the leading fence
from a fenced block whose body and trailer contain no backtick. -/
theorem sfj_fenced (c0 : Char) (s1 tr : List Char) (fuel : Nat)
    (hc0w : jsWs c0 = false) (hc0b : c0 ≠ '`')
    (hs : ∀ c ∈ s1, c ≠ '`') (htr : ∀ c ∈ tr, c ≠ '`') :
    sfj (14 + s1.length + tr.length + fuel) false
        ('`' :: '`' :: '`' :: 'j' :: 's' :: 'o' :: 'n' :: '\n' ::
          (c0 :: s1 ++ '\n' :: '`' :: '`' :: '`' :: '\n' :: tr)) =
      c0 :: s1 ++ '\n' :: '`' :: '`' :: '`' :: '\n' :: tr := by
  have e6 : "``json".data = ['`', '`', 'j', 's', 'o', 'n'] := rfl
  have htick1 : startsWithCI ('`' :: '`' :: '\n' :: tr) ("``json".data) = false := by
    rw [e6]; simp [startsWithCI, lowChar]
  have htick2 : startsWithCI ('`' :: '\n' :: tr) ("``json".data) = false := by
    rw [e6]; simp [startsWithCI, lowChar]
  have htick3 : startsWithCI ('\n' :: tr) ("``json".data) = false := by
    rw [e6]; simp [startsWithCI, lowChar]
  rw [show 14 + s1.length + tr.length + fuel =
        (13 + s1.length + tr.length + fuel) + 1 from by omega]
  rw [sfj_fence]
  rw [show 13 + s1.length + tr.length + fuel =
        (12 + s1.length + tr.length + fuel) + 1 from by omega]
  rw [sfj_cons_ws _ _ _ (by decide)]
  rw [show 12 + s1.length + tr.length + fuel =
        (11 + s1.length + tr.length + fuel) + 1 from by omega]
  rw [List.cons_append]
  rw [sfj_cons_ne _ _ _ _ (Or.inr hc0w) hc0b]
  rw [show 11 + s1.length + tr.length + fuel =
        s1.length + (11 + tr.length + fuel) from by omega]
  rw [sfj_copy s1 _ _ hs]
  rw [show 11 + tr.length + fuel = (10 + tr.length + fuel) + 1 from by omega]
  rw [sfj_cons_ne _ _ _ _ (Or.inl rfl) (by decide)]
  rw [show 10 + tr.length + fuel = (9 + tr.length + fuel) + 1 from by omega]
  rw [sfj_cons_tick _ _ htick1]
  rw [show 9 + tr.length + fuel = (8 + tr.length + fuel) + 1 from by omega]
  rw [sfj_cons_tick _ _ htick2]
  rw [show 8 + tr.length + fuel = (7 + tr.length + fuel) + 1 from by omega]
  rw [sfj_cons_tick _ _ htick3]
  rw [show 7 + tr.length + fuel = (6 + tr.length + fuel) + 1 from by omega]
  rw [sfj_cons_ne _ _ _ _ (Or.inl rfl) (by decide)]
  rw [show 6 + tr.length + fuel = tr.length + (6 + fuel) from by omega]
  rw [sfj_copy_all tr _ htr]

theorem mem_of_getLast?_some (l : List Char) (c : Char) (h : l.getLast? = some c) :
    c ∈ l := by
  rw [List.getLast?_eq_some_iff] at h
  obtain ⟨lf, rfl⟩ := h
  simp

/-- Full fence cleanup: on a response consisting of a backtick-free body
wrapped in markdown json fences followed by a backtick-free trailer ending
in a non-whitespace character, the cleanup keeps the body, the fence
newlines, and the trailer, and removes the fence markers. -/
theorem cleanResponseText_fenced (t : String) (s1 tr : List Char) (cl : Char)
    (hdata : t.data = '`' :: '`' :: '`' :: 'j' :: 's' :: 'o' :: 'n' :: '\n' ::
        ('{' :: s1 ++ '\n' :: '`' :: '`' :: '`' :: '\n' :: tr))
    (hs : ∀ c ∈ s1, c ≠ '`')
    (htr : ∀ c ∈ tr, c ≠ '`')
    (htrl : tr.getLast? = some cl) (hclw : jsWs cl = false) :
    cleanResponseText t = '{' :: s1 ++ '\n' :: '\n' :: tr := by
  have hshape : ('{' :: s1 ++ '\n' :: '`' :: '`' :: '`' :: '\n' :: tr)
      = ('{' :: s1 ++ ['\n', '`', '`', '`', '\n']) ++ tr := by simp
  have hshape2 : ('{' :: s1 ++ '\n' :: '\n' :: tr)
      = ('{' :: s1 ++ ['\n', '\n']) ++ tr := by simp
  have h1 : sfj (t.data.length + 1) false t.data
      = '{' :: s1 ++ '\n' :: '`' :: '`' :: '`' :: '\n' :: tr := by
    have hlen : t.data.length + 1 = 14 + s1.length + tr.length + 1 := by
      rw [hdata]; simp [List.length_append]; omega
    rw [hlen, hdata]
    exact sfj_fenced '{' s1 tr 1 (by decide) (by decide) hs htr
  have h2 : stripFenceEnd ('{' :: s1 ++ '\n' :: '`' :: '`' :: '`' :: '\n' :: tr)
      = '{' :: s1 ++ '\n' :: '`' :: '`' :: '`' :: '\n' :: tr := by
    apply stripFenceEnd_id _ cl _ hclw (htr cl (mem_of_getLast?_some _ _ htrl))
    rw [hshape]
    exact getLast?_append_some tr _ cl htrl
  have h3 : stripTicks (('{' :: s1 ++ '\n' :: '`' :: '`' :: '`' :: '\n' :: tr).length + 1)
      ('{' :: s1 ++ '\n' :: '`' :: '`' :: '`' :: '\n' :: tr)
      = '{' :: s1 ++ '\n' :: '\n' :: tr := by
    rw [show ('{' :: s1 ++ '\n' :: '`' :: '`' :: '`' :: '\n' :: tr).length + 1
          = (6 + s1.length + tr.length) + 1 from by simp [List.length_append]; omega]
    rw [List.cons_append]
    rw [stripTicks_cons_ne _ _ _ (by decide)]
    rw [show 6 + s1.length + tr.length = s1.length + (6 + tr.length) from by omega]
    rw [stripTicks_copy s1 _ _ hs]
    rw [show 6 + tr.length = (5 + tr.length) + 1 from by omega]
    rw [stripTicks_cons_ne _ _ _ (by decide)]
    rw [show 5 + tr.length = (4 + tr.length) + 1 from by omega]
    rw [stripTicks_fence]
    rw [show 4 + tr.length = (3 + tr.length) + 1 from by omega]
    rw [stripTicks_cons_ne _ _ _ (by decide)]
    rw [show 3 + tr.length = tr.length + 3 from by omega]
    rw [stripTicks_all tr _ htr]
    simp
  show trimChars (stripTicks ((stripFenceEnd (sfj (t.data.length + 1) false t.data)).length + 1)
      (stripFenceEnd (sfj (t.data.length + 1) false t.data))) = _
  rw [h1, h2, h3]
  apply trimChars_id _ '{' cl
  · simp
  · decide
  · rw [hshape2]
    exact getLast?_append_some tr _ cl htrl
  · exact hclw

/-- Boundary extraction on the cleaned fenced response: the first `\x7b` is
at index 0 and the last `\x7d` closes the body, so the substring is exactly
the body. -/
theorem extractJsonSlice_fenced (s1 tr : List Char)
    (hlast : ('{' :: s1).getLast? = some '}')
    (htr : ∀ c ∈ tr, c ≠ '{' ∧ c ≠ '}') :
    extractJsonSlice ('{' :: s1 ++ '\n' :: '\n' :: tr) = '{' :: s1 := by
  rw [List.getLast?_eq_some_iff] at hlast
  obtain ⟨init, hinit⟩ := hlast
  have hfi : idxOfAux '{' ('{' :: s1 ++ '\n' :: '\n' :: tr) 0 = some 0 := by
    rw [List.cons_append]; exact idxOfAux_head _ _ _
  have hrev : ('{' :: s1 ++ '\n' :: '\n' :: tr).reverse
      = (tr.reverse ++ ['\n', '\n']) ++ '}' :: init.reverse := by
    rw [show ('{' :: s1 ++ '\n' :: '\n' :: tr) = ('{' :: s1) ++ ('\n' :: '\n' :: tr) from rfl]
    rw [List.reverse_append, hinit, List.reverse_append]
    simp
  have hlastIdx : lastIdxOf '}' ('{' :: s1 ++ '\n' :: '\n' :: tr) = some s1.length := by
    unfold lastIdxOf
    rw [hrev, idxOfAux_append_not _ _ _ 0 ?hnot]
    case hnot =>
      intro c hc
      rcases List.mem_append.mp hc with h | h
      · exact (htr c (List.mem_reverse.mp h)).2
      · simp at h
        subst h
        decide
    have harith : ('{' :: s1 ++ '\n' :: '\n' :: tr).length - 1 -
        (0 + (tr.reverse ++ ['\n', '\n']).length) = s1.length := by
      simp [List.length_append]
    dsimp only
    rw [harith]
  have hso : sliceObj ('{' :: s1 ++ '\n' :: '\n' :: tr) = '{' :: s1 := by
    unfold sliceObj
    rw [hfi, hlastIdx]
    dsimp only
    unfold substringSlice
    rw [List.drop_zero]
    rw [show s1.length + 1 - 0 = ('{' :: s1).length from by simp]
    exact List.take_left _ _
  unfold extractJsonSlice
  cases hfa : idxOfAux '[' ('{' :: s1 ++ '\n' :: '\n' :: tr) 0 with
  | none => exact hso
  | some fa =>
      dsimp only
      rw [hfi]
      dsimp only
      rw [if_neg (by simp)]
      exact hso

theorem parseJsonFromResponse_some (t : String) (h : ¬(t = "")) :
    parseJsonFromResponse (some t) =
      match parseJson (String.mk (extractJsonSlice (cleanResponseText t))) with
      | some v => some v
      | none =>
          match parseJson (String.mk (backslashFix (extractJsonSlice (cleanResponseText t)))) with
          | some v => some v
          | none => none := by
  rw [parseJsonFromResponse]
  rw [if_neg h]

/-- C9: For every response text consisting of a backtick-free JSON object
wrapped in markdown json code fences followed by a trailing explanation
sentence containing no braces (and no backticks, ending in a
non-whitespace character), parseJsonFromResponse returns the parsed inner
JSON object; and parseJsonFromResponse never raises: it is a total
function which, whenever both the direct parse of the extracted slice and
the backslash-repair parse fail, returns the absent result, and on absent
input returns the absent result. -/
theorem parseJsonFromResponse_spec :
    (∀ (s trailing : String) (v : Json),
      s.data.head? = some '{' →
      s.data.getLast? = some '}' →
      (∀ c ∈ s.data, c ≠ '`') →
      (∀ c ∈ trailing.data, c ≠ '{' ∧ c ≠ '}' ∧ c ≠ '`') →
      (∃ cl, trailing.data.getLast? = some cl ∧ jsWs cl = false) →
      parseJson s = some v →
      parseJsonFromResponse (some ("```json\n" ++ s ++ "\n```\n" ++ trailing)) = some v)
    ∧ (∀ t : String,
        parseJson (String.mk (extractJsonSlice (cleanResponseText t))) = none →
        parseJson (String.mk (backslashFix (extractJsonSlice (cleanResponseText t)))) = none →
        parseJsonFromResponse (some t) = none)
    ∧ parseJsonFromResponse none = none := by
  refine ⟨?_, ?_, rfl⟩
  · intro s trailing v hhead hlast hsb htrb htrend hparse
    obtain ⟨cl, hcl, hclw⟩ := htrend
    cases hsd : s.data with
    | nil => rw [hsd] at hhead; exact absurd hhead (by simp)
    | cons c0 s1 =>
        rw [hsd] at hhead
        rw [List.head?_cons] at hhead
        have hc0 : c0 = '{' := by injection hhead
        subst hc0
        have hdata : ("```json\n" ++ s ++ "\n```\n" ++ trailing).data
            = '`' :: '`' :: '`' :: 'j' :: 's' :: 'o' :: 'n' :: '\n' ::
                ('{' :: s1 ++ '\n' :: '`' :: '`' :: '`' :: '\n' :: trailing.data) := by
          simp only [data_append_str, List.append_assoc]
          rw [hsd]
          rfl
        have hs1b : ∀ c ∈ s1, c ≠ '`' := by
          intro c hc
          exact hsb c (by rw [hsd]; exact List.mem_cons_of_mem _ hc)
        have hclean := cleanResponseText_fenced _ s1 trailing.data cl hdata
            hs1b (fun c hc => (htrb c hc).2.2) hcl hclw
        have hslice := extractJsonSlice_fenced s1 trailing.data (hsd ▸ hlast)
            (fun c hc => ⟨(htrb c hc).1, (htrb c hc).2.1⟩)
        have ht : ¬("```json\n" ++ s ++ "\n```\n" ++ trailing = "") := by
          intro h
          rw [h] at hdata
          exact absurd hdata (by simp)
        rw [parseJsonFromResponse_some _ ht]
        rw [hclean, hslice]
        have hmk : String.mk ('{' :: s1) = s := by
          rw [← hsd]
        rw [hmk, hparse]
  · intro t h1 h2
    by_cases ht : t = ""
    · simp [parseJsonFromResponse, ht]
    · rw [parseJsonFromResponse_some _ ht]
      rw [h1, h2]

theorem parseJsonFromResponse_spec_witness :
    parseJsonFromResponse
        (some ("```json\n" ++ "\x7b\"answer\": \"C\", \"score\": 12\x7d" ++ "\n```\n" ++
          "Here is the parsed result.")) =
      some (Json.obj [("answer", Json.str "C"), ("score", Json.num "12")]) ∧
    parseJsonFromResponse (some "no json content here") = none :=
  ⟨parseJsonFromResponse_spec.1 "\x7b\"answer\": \"C\", \"score\": 12\x7d"
      "Here is the parsed result."
      (Json.obj [("answer", Json.str "C"), ("score", Json.num "12")])
      (by decide) (by decide) (by decide) (by decide)
      ⟨'.', by decide, by decide⟩ (by rfl),
    parseJsonFromResponse_spec.2.1 "no json content here" (by rfl) (by rfl)⟩
